import Mathlib

/-!
Verification of the manifest extraction and sanitization pipeline of
`gcp_kube_resource_reader/kube_resource_reader.py`.

The Python data values flowing through the pipeline (parsed JSON / YAML) are
modelled by the inductive type `Json` below: nested mappings (`obj`, as
association lists of string keys in insertion order, mirroring Python dicts),
ordered sequences (`arr`), strings, integers, booleans and null.  Python
operations used by the source — `dict.get`, `dict.pop`, `d[k] = v`,
truthiness, `str.strip`, `str.replace`, `str.rstrip`, `str.split` — are
embedded as functions on this type.  Code that can raise an exception is
embedded with an `Option`/`Except` result, `none`/`.error` marking the raise.
-/

inductive Json where
  | null
  | b (x : Bool)
  | i (n : Int)
  | s (str : String)
  | arr (xs : List Json)
  | obj (kvs : List (String × Json))

namespace Json

/-- Python truthiness (`if data:`): empty containers, empty strings, zero,
`False` and `None` are falsy. -/
def truthy : Json → Bool
  | .null => false
  | .b x => x
  | .i n => n != 0
  | .s st => !st.isEmpty
  | .arr [] => false
  | .arr (_ :: _) => true
  | .obj [] => false
  | .obj (_ :: _) => true

end Json

/-- `d.get(k)` / `k in d`: first (only, for real dicts) binding of `k`. -/
def getKey : List (String × Json) → String → Option Json
  | [], _ => none
  | (k0, v) :: rest, k => if k0 = k then some v else getKey rest k

/-- `d.pop(k, None)`: remove the binding of `k` (first occurrence). -/
def popKey : List (String × Json) → String → List (String × Json)
  | [], _ => []
  | (k0, v) :: rest, k => if k0 = k then rest else (k0, v) :: popKey rest k

/-- `d[k] = v`: update the binding in place if present, else append. -/
def setKey : List (String × Json) → String → Json → List (String × Json)
  | [], k, v => [(k, v)]
  | (k0, v0) :: rest, k, v =>
      if k0 = k then (k0, v) :: rest else (k0, v0) :: setKey rest k v

/-- A sequence of `d.pop(kᵢ, None)` calls. -/
def popAll (kvs : List (String × Json)) (keys : List String) : List (String × Json) :=
  keys.foldl popKey kvs

def asObjKvs : Json → Option (List (String × Json))
  | .obj kvs => some kvs
  | _ => none

/-- Key uniqueness of a mapping (real Python dicts always satisfy it). -/
def nodupKeys : List (String × Json) → Bool
  | [] => true
  | (k, _) :: rest => (getKey rest k).isNone && nodupKeys rest

/-- Python `s.endswith(suffix)` (structural implementation on char lists). -/
def pyEndsWith (s suffix : String) : Bool :=
  List.isPrefixOf suffix.data.reverse s.data.reverse

section AssocLemmas

@[simp] theorem getKey_nil (k : String) : getKey [] k = none := rfl

@[simp] theorem getKey_cons_self (k : String) (v : Json) (rest : List (String × Json)) :
    getKey ((k, v) :: rest) k = some v := by simp [getKey]

theorem getKey_cons_ne (k0 k : String) (v : Json) (rest : List (String × Json))
    (hk : k0 ≠ k) : getKey ((k0, v) :: rest) k = getKey rest k := by simp [getKey, hk]

@[simp] theorem popKey_nil (k : String) : popKey [] k = [] := rfl

@[simp] theorem popKey_cons_self (k : String) (v : Json) (rest : List (String × Json)) :
    popKey ((k, v) :: rest) k = rest := by simp [popKey]

theorem popKey_cons_ne (k0 k : String) (v : Json) (rest : List (String × Json))
    (hk : k0 ≠ k) : popKey ((k0, v) :: rest) k = (k0, v) :: popKey rest k := by
  simp [popKey, hk]

@[simp] theorem setKey_nil (k : String) (v : Json) : setKey [] k v = [(k, v)] := rfl

@[simp] theorem setKey_cons_self (k : String) (v0 v : Json) (rest : List (String × Json)) :
    setKey ((k, v0) :: rest) k v = (k, v) :: rest := by simp [setKey]

theorem setKey_cons_ne (k0 k : String) (v0 v : Json) (rest : List (String × Json))
    (hk : k0 ≠ k) : setKey ((k0, v0) :: rest) k v = (k0, v0) :: setKey rest k v := by
  simp [setKey, hk]

theorem getKey_popKey_ne (kvs : List (String × Json)) (k k' : String) (h : k' ≠ k) :
    getKey (popKey kvs k) k' = getKey kvs k' := by
  induction kvs with
  | nil => rfl
  | cons p rest ih =>
    obtain ⟨k0, v⟩ := p
    by_cases hk : k0 = k
    · subst hk
      rw [popKey_cons_self, getKey_cons_ne _ _ _ _ (fun he => h he.symm)]
    · rw [popKey_cons_ne _ _ _ _ hk]
      by_cases hk' : k0 = k'
      · subst hk'; simp
      · rw [getKey_cons_ne _ _ _ _ hk', getKey_cons_ne _ _ _ _ hk', ih]

theorem getKey_popKey_self (kvs : List (String × Json)) (k : String)
    (h : nodupKeys kvs = true) : getKey (popKey kvs k) k = none := by
  induction kvs with
  | nil => rfl
  | cons p rest ih =>
    obtain ⟨k0, v⟩ := p
    simp only [nodupKeys, Bool.and_eq_true, Option.isNone_iff_eq_none] at h
    by_cases hk : k0 = k
    · subst hk
      rw [popKey_cons_self]
      exact h.1
    · rw [popKey_cons_ne _ _ _ _ hk, getKey_cons_ne _ _ _ _ hk]
      exact ih h.2

theorem popKey_of_getKey_none (kvs : List (String × Json)) (k : String)
    (h : getKey kvs k = none) : popKey kvs k = kvs := by
  induction kvs with
  | nil => rfl
  | cons p rest ih =>
    obtain ⟨k0, v⟩ := p
    by_cases hk : k0 = k
    · subst hk; simp at h
    · rw [getKey_cons_ne _ _ _ _ hk] at h
      rw [popKey_cons_ne _ _ _ _ hk, ih h]

theorem getKey_setKey_self (kvs : List (String × Json)) (k : String) (v : Json) :
    getKey (setKey kvs k v) k = some v := by
  induction kvs with
  | nil => simp
  | cons p rest ih =>
    obtain ⟨k0, v0⟩ := p
    by_cases hk : k0 = k
    · subst hk; simp
    · rw [setKey_cons_ne _ _ _ _ _ hk, getKey_cons_ne _ _ _ _ hk]
      exact ih

theorem getKey_setKey_ne (kvs : List (String × Json)) (k k' : String) (v : Json)
    (h : k' ≠ k) : getKey (setKey kvs k v) k' = getKey kvs k' := by
  induction kvs with
  | nil =>
    rw [setKey_nil, getKey_cons_ne _ _ _ _ (fun he => h he.symm), getKey_nil]
  | cons p rest ih =>
    obtain ⟨k0, v0⟩ := p
    by_cases hk : k0 = k
    · subst hk
      rw [setKey_cons_self, getKey_cons_ne _ _ _ _ (fun he => h he.symm),
        getKey_cons_ne _ _ _ _ (fun he => h he.symm)]
    · rw [setKey_cons_ne _ _ _ _ _ hk]
      by_cases hk' : k0 = k'
      · subst hk'; simp
      · rw [getKey_cons_ne _ _ _ _ hk', getKey_cons_ne _ _ _ _ hk', ih]

theorem setKey_of_getKey_some (kvs : List (String × Json)) (k : String) (v : Json)
    (h : getKey kvs k = some v) : setKey kvs k v = kvs := by
  induction kvs with
  | nil => simp at h
  | cons p rest ih =>
    obtain ⟨k0, v0⟩ := p
    by_cases hk : k0 = k
    · subst hk
      rw [getKey_cons_self] at h
      obtain rfl : v0 = v := by injection h
      simp
    · rw [getKey_cons_ne _ _ _ _ hk] at h
      rw [setKey_cons_ne _ _ _ _ _ hk, ih h]

theorem nodupKeys_popKey (kvs : List (String × Json)) (k : String)
    (h : nodupKeys kvs = true) : nodupKeys (popKey kvs k) = true := by
  induction kvs with
  | nil => rfl
  | cons p rest ih =>
    obtain ⟨k0, v⟩ := p
    simp only [nodupKeys, Bool.and_eq_true, Option.isNone_iff_eq_none] at h
    by_cases hk : k0 = k
    · subst hk
      rw [popKey_cons_self]
      exact h.2
    · rw [popKey_cons_ne _ _ _ _ hk]
      simp only [nodupKeys, Bool.and_eq_true, Option.isNone_iff_eq_none]
      refine ⟨?_, ih h.2⟩
      rw [getKey_popKey_ne _ _ _ hk, h.1]

theorem nodupKeys_setKey (kvs : List (String × Json)) (k : String) (v : Json)
    (hsome : getKey kvs k ≠ none)
    (h : nodupKeys kvs = true) : nodupKeys (setKey kvs k v) = true := by
  induction kvs with
  | nil => simp at hsome
  | cons p rest ih =>
    obtain ⟨k0, v0⟩ := p
    simp only [nodupKeys, Bool.and_eq_true, Option.isNone_iff_eq_none] at h
    by_cases hk : k0 = k
    · subst hk
      rw [setKey_cons_self]
      simp only [nodupKeys, Bool.and_eq_true, Option.isNone_iff_eq_none]
      exact h
    · rw [getKey_cons_ne _ _ _ _ hk] at hsome
      rw [setKey_cons_ne _ _ _ _ _ hk]
      simp only [nodupKeys, Bool.and_eq_true, Option.isNone_iff_eq_none]
      refine ⟨?_, ih hsome h.2⟩
      rw [getKey_setKey_ne _ _ _ _ hk, h.1]

theorem getKey_popAll_not_mem (kvs : List (String × Json)) (keys : List String)
    (k : String) (h : k ∉ keys) :
    getKey (popAll kvs keys) k = getKey kvs k := by
  induction keys generalizing kvs with
  | nil => rfl
  | cons k0 rest ih =>
    simp only [List.mem_cons, not_or] at h
    show getKey (popAll (popKey kvs k0) rest) k = _
    rw [ih (popKey kvs k0) h.2, getKey_popKey_ne _ _ _ h.1]

theorem nodupKeys_popAll (kvs : List (String × Json)) (keys : List String)
    (h : nodupKeys kvs = true) : nodupKeys (popAll kvs keys) = true := by
  induction keys generalizing kvs with
  | nil => exact h
  | cons k0 rest ih =>
    exact ih (popKey kvs k0) (nodupKeys_popKey kvs k0 h)

theorem getKey_popAll_mem (kvs : List (String × Json)) (keys : List String)
    (k : String) (hmem : k ∈ keys)
    (h : nodupKeys kvs = true) :
    getKey (popAll kvs keys) k = none := by
  induction keys generalizing kvs with
  | nil => simp at hmem
  | cons k0 rest ih =>
    show getKey (popAll (popKey kvs k0) rest) k = none
    by_cases hk : k ∈ rest
    · exact ih (popKey kvs k0) hk (nodupKeys_popKey kvs k0 h)
    · have hk0 : k = k0 := by
        rcases List.mem_cons.mp hmem with h1 | h2
        · exact h1
        · exact absurd h2 hk
      subst hk0
      rw [getKey_popAll_not_mem _ _ _ hk]
      exact getKey_popKey_self kvs k h

theorem popAll_of_getKey_none (kvs : List (String × Json)) (keys : List String)
    (h : ∀ k ∈ keys, getKey kvs k = none) :
    popAll kvs keys = kvs := by
  induction keys with
  | nil => rfl
  | cons k0 rest ih =>
    show popAll (popKey kvs k0) rest = kvs
    rw [popKey_of_getKey_none kvs k0 (h k0 (by simp))]
    exact ih (fun k hk => h k (by simp [hk]))

end AssocLemmas

/-! ## Sanitizer: `KubeResourceReader.clean_kubectl_output_json`

The Python function parses its JSON text argument and then mutates the parsed
object in place.  The embedding below operates on the already-parsed value and
threads the mutations functionally; `none` marks an uncaught exception
(`AttributeError`/`TypeError` from calling `.get`/`.pop` on a non-dict, or
from `data.get('metadata').get('name').endswith(...)` when a link in that
chain is missing or not a string). -/

/-- The pops applied inside a dict value:
`v.pop(k₁, None); …` — raises when `v` is not a dict. -/
def popObj (keys : List String) (j : Json) : Option Json :=
  match j with
  | .obj kvs => some (.obj (popAll kvs keys))
  | _ => none

/-- `v = d.get(k, {}); <mutate v>` — the mutation is visible in `d` only when
`k` is present; raises (propagates `none`) when present and `f` raises. -/
def modifyPresent (kvs : List (String × Json)) (k : String) (f : Json → Option Json) :
    Option (List (String × Json)) :=
  match getKey kvs k with
  | none => some kvs
  | some v =>
    match f v with
    | none => none
    | some v' => some (setKey kvs k v')

def metaPopKeys : List String :=
  ["resourceVersion", "uid", "generation", "creationTimestamp", "managedFields"]

def annPopKeys : List String :=
  ["kubectl.kubernetes.io/last-applied-configuration",
   "deployment.kubernetes.io/revision",
   "kubernetes.io/change-cause",
   "cloud.google.com/neg",
   "cloud.google.com/neg-status",
   "volume.kubernetes.io/selected-node",
   "pv.kubernetes.io/bind-completed"]

def tmplLabelPopKeys : List String := ["pod-template-hash", "pod-template-generation"]

def tmplAnnPopKeys : List String :=
  ["kubectl.kubernetes.io/restartedAt",
   "kubectl.kubernetes.io/last-applied-configuration"]

def svcPopKeys : List String := ["clusterIP", "clusterIPs", "loadBalancerIP"]

/-- Lines 226-248: cleanup of the top-level `metadata` value. -/
def cleanMetadata (m : Json) : Option Json :=
  match asObjKvs m with
  | none => none
  | some mkvs =>
    let mkvs1 := popAll mkvs metaPopKeys
    match modifyPresent mkvs1 "annotations" (popObj annPopKeys) with
    | none => none
    | some mkvs2 =>
      match modifyPresent mkvs2 "labels" (popObj ["helm.sh/chart"]) with
      | none => none
      | some mkvs3 => some (.obj (popKey mkvs3 "ownerReferences"))

/-- Lines 256-265: cleanup of `spec.template.metadata`. -/
def cleanTemplateMetadata (tm : Json) : Option Json :=
  match asObjKvs tm with
  | none => none
  | some tkvs =>
    match modifyPresent tkvs "labels" (popObj tmplLabelPopKeys) with
    | none => none
    | some tkvs1 =>
      match modifyPresent tkvs1 "annotations" (popObj tmplAnnPopKeys) with
      | none => none
      | some tkvs2 => some (.obj (popKey tkvs2 "creationTimestamp"))

/-- Lines 268-272: cleanup of `spec.selector.matchLabels`. -/
def cleanSelector (sel : Json) : Option Json :=
  match asObjKvs sel with
  | none => none
  | some skvs =>
    match modifyPresent skvs "matchLabels" (popObj tmplLabelPopKeys) with
    | none => none
    | some skvs1 => some (.obj skvs1)

/-- Lines 256-265: `template_metadata = template.get('metadata', {});
if template_metadata: ...` applied to the template mapping. -/
def cleanTemplateStage (tkvs : List (String × Json)) : Option (List (String × Json)) :=
  let tm := (getKey tkvs "metadata").getD (.obj [])
  if tm.truthy then
    match cleanTemplateMetadata tm with
    | none => none
    | some tm' => some (setKey tkvs "metadata" tm')
  else some tkvs

/-- Lines 267-272: `selector = spec.get('selector', {}); if selector: ...`
applied to the spec mapping. -/
def cleanSelectorStage (skvs1 : List (String × Json)) : Option (List (String × Json)) :=
  let sel := (getKey skvs1 "selector").getD (.obj [])
  if sel.truthy then
    match cleanSelector sel with
    | none => none
    | some sel' => some (setKey skvs1 "selector" sel')
  else some skvs1

/-- Lines 253-272: the `template = spec.get('template', {}); if template: ...`
block (the selector cleanup is nested inside it in the source). -/
def cleanTemplateBlock (skvs : List (String × Json)) : Option (List (String × Json)) :=
  let t := (getKey skvs "template").getD (.obj [])
  if t.truthy then
    match asObjKvs t with
    | none => none
    | some tkvs =>
      match cleanTemplateStage tkvs with
      | none => none
      | some tkvs' => cleanSelectorStage (setKey skvs "template" (.obj tkvs'))
  else some skvs

/-- Line 275: `data.get('kind') == 'Service' and not
data.get('metadata').get('name').endswith('-headless')`.  When the kind is the
string `'Service'` the second conjunct is evaluated: it raises
(`none`) unless `metadata` is a dict whose `name` is a string. -/
def serviceNotHeadless (dkvs : List (String × Json)) : Option Bool :=
  match getKey dkvs "kind" with
  | some (Json.s k) =>
    if k = "Service" then
      match getKey dkvs "metadata" with
      | some (.obj mkvs) =>
        match getKey mkvs "name" with
        | some (.s n) => some (!(pyEndsWith n "-headless"))
        | _ => none
      | _ => none
    else some false
  | _ => some false

/-- `data.get('kind') == 'PersistentVolumeClaim'` (line 280). -/
def isPvcKind (dkvs : List (String × Json)) : Bool :=
  match getKey dkvs "kind" with
  | some (Json.s k) => k = "PersistentVolumeClaim"
  | _ => false

/-- Lines 274-281: Service / PersistentVolumeClaim specific pops on `spec`.
`dkvs` is the record at that point (metadata already cleaned). -/
def cleanServicePvc (dkvs skvs : List (String × Json)) :
    Option (List (String × Json)) :=
  match serviceNotHeadless dkvs with
  | none => none
  | some bsvc =>
    let s1 := if bsvc then popAll skvs svcPopKeys else skvs
    some (if isPvcKind dkvs then popKey s1 "volumeName" else s1)

/-- Lines 226-286 applied to a parsed record that is a (truthy) dict. -/
def cleanBody (dkvs : List (String × Json)) : Option (List (String × Json)) :=
  match modifyPresent dkvs "metadata" cleanMetadata with
  | none => none
  | some d1 =>
    let spec := (getKey d1 "spec").getD (.obj [])
    match (if spec.truthy then
             match asObjKvs spec with
             | none => none
             | some skvs =>
               match cleanTemplateBlock skvs with
               | none => none
               | some s1 =>
                 match cleanServicePvc d1 s1 with
                 | none => none
                 | some s2 => some (setKey d1 "spec" (.obj s2))
           else some d1) with
    | none => none
    | some d2 => some (popKey d2 "status")

/-- `clean_kubectl_output_json`, applied to the parsed value of its argument:
`if not data: return ""`, then the field removals, then `return data`.
`none` marks an uncaught exception escaping the function (only
`json.JSONDecodeError` is caught in the source). -/
def clean (data : Json) : Option Json :=
  if data.truthy then
    match data with
    | .obj dkvs => (cleanBody dkvs).map Json.obj
    | _ => none
  else some (.s "")

/-! ## String helpers mirroring Python primitives -/

/-- Whitespace stripped by Python `str.strip()` (ASCII subset). -/
def isPySpace (c : Char) : Bool :=
  c = ' ' || c = '\t' || c = '\n' || c = '\r' || c = '\x0b' || c = '\x0c'

/-- Python `s.strip()`. -/
def pyStrip (s : String) : String :=
  ⟨List.reverse (List.dropWhile isPySpace (List.reverse (List.dropWhile isPySpace s.data)))⟩

/-- Python `s.split('|')`. -/
def splitPipeAux : List Char → List Char → List String
  | [], acc => [⟨acc.reverse⟩]
  | c :: rest, acc =>
      if c = '|' then ⟨acc.reverse⟩ :: splitPipeAux rest []
      else splitPipeAux rest (c :: acc)

def pySplitPipe (s : String) : List String := splitPipeAux s.data []

/-- Python `s.replace(old, new)`: global, left-to-right, non-overlapping. -/
def pyReplaceAux (old new : List Char) : Nat → List Char → List Char
  | _, [] => []
  | 0, cs => cs
  | fuel + 1, c :: rest =>
      if List.isPrefixOf old (c :: rest) then
        new ++ pyReplaceAux old new fuel (List.drop old.length (c :: rest))
      else
        c :: pyReplaceAux old new fuel rest

def pyReplace (s old new : String) : String :=
  if old.data.isEmpty then
    -- `"abc".replace("", "-") == "-a-b-c-"`
    ⟨new.data ++ s.data.foldr (fun c acc => c :: (new.data ++ acc)) []⟩
  else ⟨pyReplaceAux old.data new.data s.data.length s.data⟩

/-- Python `s.rstrip(chars)`. -/
def pyRstrip (s : String) (cutset : List Char) : String :=
  ⟨List.reverse (List.dropWhile (fun c => cutset.contains c) (List.reverse s.data))⟩

mutual
/-- Python `repr(v)` as used by `str` on containers.  Scalars follow Python;
strings use a simplified single-quote rendering (the full quote-escaping rules
are not modelled — no claim depends on container rendering). -/
def pyRepr : Json → String
  | .null => "None"
  | .b true => "True"
  | .b false => "False"
  | .i n => toString n
  | .s st => "'" ++ st ++ "'"
  | .arr [] => "[]"
  | .arr (x :: xs) => "[" ++ pyRepr x ++ pyReprArr xs ++ "]"
  | .obj [] => "\x7b\x7d"
  | .obj ((k, v) :: ps) => "\x7b'" ++ k ++ "': " ++ pyRepr v ++ pyReprObj ps ++ "\x7d"

def pyReprArr : List Json → String
  | [] => ""
  | x :: xs => ", " ++ pyRepr x ++ pyReprArr xs

def pyReprObj : List (String × Json) → String
  | [] => ""
  | (k, v) :: ps => ", '" ++ k ++ "': " ++ pyRepr v ++ pyReprObj ps
end

/-- Python `str(v)` as used in `f"||{placeholder_name}||"`. -/
def pyStr (j : Json) : String :=
  match j with
  | .s st => st
  | v => pyRepr v

/-! ## Placeholder Engine: `KubeResourceReader.add_placeholders` -/

/-- The navigation loop of lines 358-364: walk `parts`, requiring at each
step a dict containing the segment key (`isinstance(current, dict) and part
in current`); `none` is Python's `current = None`. -/
def getPath : Json → List String → Option Json
  | j, [] => some j
  | .obj kvs, p :: rest =>
      match getKey kvs p with
      | some v => getPath v rest
      | none => none
  | _, _ :: _ => none

/-- Functional image of the in-place write `current[field_name] = value`
performed at the end of the navigation: rewrite the value reached through
`parts.dropLast` at key `parts.getLast`. -/
def setAtPath : Json → List String → Json → Json
  | j, [], _ => j
  | j, [lastK], v =>
      match j with
      | .obj kvs => .obj (setKey kvs lastK v)
      | _ => j
  | j, p :: p2 :: ps, v =>
      match j with
      | .obj kvs =>
          match getKey kvs p with
          | some c => .obj (setKey kvs p (setAtPath c (p2 :: ps) v))
          | none => j
      | _ => j

/-- Lines 351-370: apply a single `path -> placeholder_name` rule entry. -/
def applyRulePair (d : Json) (path : String) (phv : Json) : Json :=
  let parts := pySplitPipe path
  if parts.length < 2 then d
  else
    match getPath d parts.dropLast with
    | some (Json.obj _) => setAtPath d parts (.s ("||" ++ pyStr phv ++ "||"))
    | _ => d

/-- Lines 346-370: one `placeholder_item` of the rule list (skipped unless a
dict; all its `path -> name` entries applied in order). -/
def applyRuleDict (d : Json) (item : Json) : Json :=
  match item with
  | .obj kvs => kvs.foldl (fun acc kv => applyRulePair acc kv.1 kv.2) d
  | _ => d

/-- Lines 336-340: first dict entry of the rule sequence keyed by `name`. -/
def findConfig : List Json → String → Option Json
  | [], _ => none
  | item :: rest, name =>
      match item with
      | .obj kvs =>
          match getKey kvs name with
          | some cfg => some cfg
          | none => findConfig rest name
      | _ => findConfig rest name

/-- `KubeResourceReader.add_placeholders` (lines 326-372); `ph` is
`self.placeholders`. -/
def add_placeholders (ph : List (String × Json)) (kind name : String) (d : Json) : Json :=
  match ph with
  | [] => d
  | _ =>
    match getKey ph kind with
    | none => d
    | some rp =>
      match rp with
      | .arr items =>
        match findConfig items name with
        | none => d
        | some cfg =>
          if cfg.truthy then
            match cfg with
            | .arr rules => rules.foldl applyRuleDict d
            | _ => d
          else d
      | _ => d

/-! ## `json.dumps(data, indent=2)` and `json.loads` (restricted to the value
domain of `Json`: numbers are modelled as integers, so floating-point
literals are outside the model and `loads` rejects them). -/

def spacesStr (n : Nat) : String := ⟨List.replicate n ' '⟩

def hexDigitChar (n : Nat) : Char :=
  if n < 10 then Char.ofNat (48 + n) else Char.ofNat (87 + n)

def toHex4 (n : Nat) : String :=
  ⟨[hexDigitChar (n / 4096 % 16), hexDigitChar (n / 256 % 16),
    hexDigitChar (n / 16 % 16), hexDigitChar (n % 16)]⟩

/-- The `ensure_ascii=True` escaping of one character in `json.dumps`. -/
def jsonEscChar (c : Char) : String :=
  if c = '"' then "\\\""
  else if c = '\\' then "\\\\"
  else if c = '\n' then "\\n"
  else if c = '\r' then "\\r"
  else if c = '\t' then "\\t"
  else if c.toNat = 8 then "\\b"
  else if c.toNat = 12 then "\\f"
  else if c.toNat < 32 || c.toNat > 126 then
    if c.toNat < 65536 then "\\u" ++ toHex4 c.toNat
    else
      let v := c.toNat - 65536
      "\\u" ++ toHex4 (55296 + v / 1024) ++ "\\u" ++ toHex4 (56320 + v % 1024)
  else ⟨[c]⟩

def jsonQuote (st : String) : String :=
  "\"" ++ String.join (st.data.map jsonEscChar) ++ "\""

mutual
/-- `json.dumps(j, indent=2)`, at given current indentation width. -/
def dumpJson : Json → Nat → String
  | .null, _ => "null"
  | .b true, _ => "true"
  | .b false, _ => "false"
  | .i n, _ => toString n
  | .s st, _ => jsonQuote st
  | .arr [], _ => "[]"
  | .arr (x :: xs), ind =>
      "[\n" ++ spacesStr (ind + 2) ++ dumpJson x (ind + 2) ++ dumpJsonArr xs (ind + 2) ++
        "\n" ++ spacesStr ind ++ "]"
  | .obj [], _ => "\x7b\x7d"
  | .obj ((k, v) :: ps), ind =>
      "\x7b\n" ++ spacesStr (ind + 2) ++ jsonQuote k ++ ": " ++ dumpJson v (ind + 2) ++
        dumpJsonObj ps (ind + 2) ++ "\n" ++ spacesStr ind ++ "\x7d"

def dumpJsonArr : List Json → Nat → String
  | [], _ => ""
  | x :: xs, ind => ",\n" ++ spacesStr ind ++ dumpJson x ind ++ dumpJsonArr xs ind

def dumpJsonObj : List (String × Json) → Nat → String
  | [], _ => ""
  | (k, v) :: ps, ind =>
      ",\n" ++ spacesStr ind ++ jsonQuote k ++ ": " ++ dumpJson v ind ++ dumpJsonObj ps ind
end

def dumps (j : Json) : String := dumpJson j 0

/-- JSON whitespace accepted by `json.loads`. -/
def isJsonWs (c : Char) : Bool := c = ' ' || c = '\t' || c = '\n' || c = '\r'

def skipWs (cs : List Char) : List Char := cs.dropWhile isJsonWs

def hexVal (c : Char) : Option Nat :=
  if '0' ≤ c ∧ c ≤ '9' then some (c.toNat - 48)
  else if 'a' ≤ c ∧ c ≤ 'f' then some (c.toNat - 87)
  else if 'A' ≤ c ∧ c ≤ 'F' then some (c.toNat - 55)
  else none

def parseHex4 : List Char → Option (Nat × List Char)
  | c1 :: c2 :: c3 :: c4 :: rest =>
    match hexVal c1, hexVal c2, hexVal c3, hexVal c4 with
    | some h1, some h2, some h3, some h4 => some (h1 * 4096 + h2 * 256 + h3 * 16 + h4, rest)
    | _, _, _, _ => none
  | _ => none

/-- String body parser (after the opening quote).  Follows `json.loads` in
strict mode: raw control characters are rejected, surrogate `\uXXXX` pairs are
combined; a lone surrogate (which Python would keep) has no `Char`
representative and is rejected — outside the model's value domain. -/
def parseStrBody : Nat → List Char → List Char → Option (String × List Char)
  | 0, _, _ => none
  | _ + 1, [], _ => none
  | fuel + 1, c :: rest, acc =>
    if c = '"' then some (⟨acc.reverse⟩, rest)
    else if c = '\\' then
      match rest with
      | [] => none
      | e :: rest2 =>
        if e = '"' then parseStrBody fuel rest2 ('"' :: acc)
        else if e = '\\' then parseStrBody fuel rest2 ('\\' :: acc)
        else if e = '/' then parseStrBody fuel rest2 ('/' :: acc)
        else if e = 'n' then parseStrBody fuel rest2 ('\n' :: acc)
        else if e = 't' then parseStrBody fuel rest2 ('\t' :: acc)
        else if e = 'r' then parseStrBody fuel rest2 ('\r' :: acc)
        else if e = 'b' then parseStrBody fuel rest2 ('\x08' :: acc)
        else if e = 'f' then parseStrBody fuel rest2 ('\x0c' :: acc)
        else if e = 'u' then
          match parseHex4 rest2 with
          | none => none
          | some (n, rest3) =>
            if 55296 ≤ n ∧ n < 56320 then
              match rest3 with
              | '\\' :: 'u' :: rest4 =>
                match parseHex4 rest4 with
                | some (m, rest5) =>
                  if 56320 ≤ m ∧ m < 57344 then
                    parseStrBody fuel rest5
                      (Char.ofNat (65536 + (n - 55296) * 1024 + (m - 56320)) :: acc)
                  else none
                | none => none
              | _ => none
            else if 56320 ≤ n ∧ n < 57344 then none
            else parseStrBody fuel rest3 (Char.ofNat n :: acc)
        else none
    else if c.toNat < 32 then none
    else parseStrBody fuel rest (c :: acc)

def digitsToNat (ds : List Char) : Nat :=
  ds.foldl (fun a c => a * 10 + (c.toNat - 48)) 0

/-- Integer completion: a fraction or exponent would make a float, which is
outside the model's value domain. -/
def finishNum (neg : Bool) (ds : List Char) (rest : List Char) : Option (Json × List Char) :=
  match rest with
  | '.' :: _ => none
  | 'e' :: _ => none
  | 'E' :: _ => none
  | _ =>
    let n : Int := (digitsToNat ds : Int)
    some (.i (if neg then -n else n), rest)

def parseNum (cs0 : List Char) : Option (Json × List Char) :=
  let (neg, cs1) := match cs0 with
    | '-' :: r => (true, r)
    | _ => (false, cs0)
  match cs1 with
  | '0' :: r => finishNum neg ['0'] r
  | _ =>
    let ds := cs1.takeWhile Char.isDigit
    if ds.isEmpty then none
    else finishNum neg ds (cs1.dropWhile Char.isDigit)

/-- A partially-built container on the parser stack. -/
inductive PFrame where
  | arr (acc : List Json)
  | obj (acc : List (String × Json)) (key : String)

/-- Shift-reduce `json.loads` core.  `mv = none`: a value is expected at
`cs`; `mv = some v`: `v` was just completed and the stack top continues. -/
def parseLoop : Nat → Option Json → List Char → List PFrame → Option (Json × List Char)
  | 0, _, _, _ => none
  | fuel + 1, none, cs, stack =>
    match skipWs cs with
    | '[' :: rest =>
      (match skipWs rest with
       | ']' :: r2 => parseLoop fuel (some (.arr [])) r2 stack
       | r2 => parseLoop fuel none r2 (PFrame.arr [] :: stack))
    | '\x7b' :: rest =>
      (match skipWs rest with
       | '\x7d' :: r2 => parseLoop fuel (some (.obj [])) r2 stack
       | '"' :: r2 =>
         (match parseStrBody (r2.length + 1) r2 [] with
          | some (k, r3) =>
            (match skipWs r3 with
             | ':' :: r4 => parseLoop fuel none r4 (PFrame.obj [] k :: stack)
             | _ => none)
          | none => none)
       | _ => none)
    | '"' :: rest =>
      (match parseStrBody (rest.length + 1) rest [] with
       | some (st, r2) => parseLoop fuel (some (.s st)) r2 stack
       | none => none)
    | 'n' :: 'u' :: 'l' :: 'l' :: r => parseLoop fuel (some .null) r stack
    | 't' :: 'r' :: 'u' :: 'e' :: r => parseLoop fuel (some (.b true)) r stack
    | 'f' :: 'a' :: 'l' :: 's' :: 'e' :: r => parseLoop fuel (some (.b false)) r stack
    | cs' =>
      (match parseNum cs' with
       | some (j, r) => parseLoop fuel (some j) r stack
       | none => none)
  | fuel + 1, some v, cs, stack =>
    match stack with
    | [] => some (v, cs)
    | PFrame.arr acc :: stk =>
      (match skipWs cs with
       | ',' :: r => parseLoop fuel none r (PFrame.arr (acc ++ [v]) :: stk)
       | ']' :: r => parseLoop fuel (some (.arr (acc ++ [v]))) r stk
       | _ => none)
    | PFrame.obj acc k :: stk =>
      (match skipWs cs with
       | ',' :: r =>
         (match skipWs r with
          | '"' :: r2 =>
            (match parseStrBody (r2.length + 1) r2 [] with
             | some (k2, r3) =>
               (match skipWs r3 with
                | ':' :: r4 => parseLoop fuel none r4 (PFrame.obj (setKey acc k v) k2 :: stk)
                | _ => none)
             | none => none)
          | _ => none)
       | '\x7d' :: r => parseLoop fuel (some (.obj (setKey acc k v))) r stk
       | _ => none)

/-- `json.loads`: `none` is a raised `json.JSONDecodeError`. -/
def loads (st : String) : Option Json :=
  match parseLoop (2 * st.data.length + 4) none st.data [] with
  | some (j, rest) => if (skipWs rest).isEmpty then some j else none
  | none => none

/-! ## Search/Replace Engine: `KubeResourceReader.apply_search_replace` -/

/-- Lines 386-394: one `search_replace_item` (skipped unless a dict; each
`search -> replacement` pair applied when the replacement is a string — keys
of `obj` are strings by construction, matching `isinstance(search_string,
str)`). -/
def srItem (acc : String) (item : Json) : String :=
  match item with
  | .obj kvs =>
      kvs.foldl (fun t kv =>
        match kv.2 with
        | .s rep => pyReplace t kv.1 ("||" ++ rep ++ "||")
        | _ => t) acc
  | _ => acc

/-- `KubeResourceReader.apply_search_replace` (lines 374-396); `ph` is
`self.placeholders`.  `none` is the uncaught `json.JSONDecodeError` raised by
the final `json.loads`. -/
def apply_search_replace (ph : List (String × Json)) (data : Json) : Option Json :=
  match ph with
  | [] => some data
  | _ =>
    match getKey ph "Search_and_Replace" with
    | none => some data
    | some cfg =>
      match cfg with
      | .arr items => loads (items.foldl srItem (dumps data))
      | _ => some data

/-- Modelled from the spec (§4.4 Search/Replace Engine), for the refinement
claim C6: with no rules, the record is returned unchanged; otherwise the
record is serialized, every `literalString -> placeholderName` rule is applied
in declared order as a global literal substring replacement with
`||placeholderName||` (each rule operating on the previous rule's output), and
the result is re-parsed. -/
def searchReplaceSpec (rules : Option (List (String × String))) (data : Json) : Option Json :=
  match rules with
  | none => some data
  | some rs =>
      loads (rs.foldl (fun t r => pyReplace t r.1 ("||" ++ r.2 ++ "||")) (dumps data))

/-! ## Output Writer trim: `KubeResourceReader.cleanup_output_file` -/

/-- Lines 532-534: `content.rstrip('\n-')` then `content.rstrip('\n')` —
the pure content transformation the file is rewritten with. -/
def cleanupContent (content : String) : String :=
  pyRstrip (pyRstrip content ['\n', '-']) ['\n']

/-! ## Extraction Orchestrator: `KubeResourceReader.run_kube_extraction`

The external fetch collaborator (the `kubectl get -o json` subprocess of
`fetch_resource`, lines 297-300) is modelled as a function from kind, name
and namespace to `some` parsed output (return code 0 and non-empty stdout)
or `none`.  The namespace argument can be any manifest value (the source
takes `resource_list[0]` unchecked), hence `Json`.  YAML serialization of the
output documents (an external library call) is likewise a function parameter.
Fatal errors — exceptions reaching the generic handler that calls
`sys.exit(1)` — are `Except.error`. -/

def Oracle := String → String → Json → Option Json

/-- One observable fetch: the arguments the kubectl collaborator was invoked
with. -/
structure FetchCall where
  kind : String
  name : String
  ns : Json

/-- Lines 295-296: the namespace actually used by `fetch_resource` — the two
fluentd monitoring resources are always fetched from `kube-system`. -/
def effNsOf (name : String) (ns : Json) : Json :=
  if name = "mlisa-monitoring-fluentd" ∨ name = "mlisa-monitoring-fluentd-config" then
    Json.s "kube-system"
  else ns

/-- `KubeResourceReader.fetch_resource` (lines 292-306), returning the call it
made together with its outcome.  A `CalledProcessError` is caught and yields
`None`; an exception escaping `clean_kubectl_output_json` propagates
(`.error`).  A falsy cleaned value (`""`) is still `some`, exactly as in the
source — the caller's `if json_data:` decides. -/
def fetch_resource (oracle : Oracle) (kind name : String) (ns : Json) :
    FetchCall × Except String (Option Json) :=
  let nsEff := effNsOf name ns
  (⟨kind, name, nsEff⟩,
    match oracle kind name nsEff with
    | none => .ok none
    | some raw =>
      match clean raw with
      | none => .error "AttributeError"
      | some cleaned => .ok (some cleaned))

/-- Orchestrator loop state: the captured namespace (`none` = the local
variable `namespace_name` is still unassigned), the attempted and succeeded
counters, the written documents, and the trace of fetch calls made. -/
structure RunState where
  ns : Option Json
  count : Nat
  succ : Nat
  docs : List String
  calls : List FetchCall

def initRunState : RunState := ⟨none, 0, 0, [], []⟩

/-- A Python `for` loop whose body may raise: the first `.error` aborts the
remaining iterations. -/
def foldE {σ α : Type} (f : σ → α → Except String σ) : σ → List α → Except String σ
  | st, [] => .ok st
  | st, a :: rest =>
    match f st a with
    | .error e => .error e
    | .ok st' => foldE f st' rest

/-- Lines 469-502: the body of the inner `for resource_name in resource_list`
loop.  Referencing the unassigned `namespace_name` raises `NameError`; a
reparse failure in `apply_search_replace` raises `JSONDecodeError`; both reach
the generic `except Exception` handler, which exits. -/
def processName (oracle : Oracle) (dumpY : Json → String) (ph : List (String × Json))
    (kind : String) (st : RunState) (nmJ : Json) : Except String RunState :=
  match nmJ with
  | .s nm0 =>
    if (pyStrip nm0).isEmpty then .ok st
    else
      let nm := pyStrip nm0
      let st1 : RunState := {st with count := st.count + 1}
      match st1.ns with
      | none => .error "NameError: namespace_name"
      | some nsv =>
        let fr := fetch_resource oracle kind nm nsv
        let st2 : RunState := {st1 with calls := st1.calls ++ [fr.1]}
        match fr.2 with
        | .error e => .error e
        | .ok none => .ok st2
        | .ok (some jd) =>
          if jd.truthy then
            match apply_search_replace ph (add_placeholders ph kind nm jd) with
            | none => .error "JSONDecodeError"
            | some replaced =>
              let y := dumpY replaced
              if y.isEmpty then .ok st2
              else .ok {st2 with docs := st2.docs ++ [y ++ "---\n"],
                                 succ := st2.succ + 1}
          else .ok st2
  | _ => .ok st

/-- Lines 464-504: one `(resource_type, resource_list)` manifest entry.
A non-list value is skipped with a warning; for kind `"Namespaces"` the first
element is captured as the namespace (`IndexError` on an empty list). -/
def processKind (oracle : Oracle) (dumpY : Json → String) (ph : List (String × Json))
    (st : RunState) (entry : String × Json) : Except String RunState :=
  match entry.2 with
  | .arr names =>
    if entry.1 = "Namespaces" then
      match names with
      | [] => .error "IndexError"
      | n0 :: _ => foldE (processName oracle dumpY ph entry.1) {st with ns := some n0} names
    else foldE (processName oracle dumpY ph entry.1) st names
  | _ => .ok st

/-- The per-resource loop of `run_kube_extraction` (lines 462-514), over a
loaded manifest, with `self.placeholders = ph` and collaborators `oracle`
(kubectl fetch) and `dumpY` (`yaml.dump`).  `.error` is a run aborted through
the surrounding `except Exception` handler (`sys.exit(1)`). -/
def runLoop (oracle : Oracle) (dumpY : Json → String) (ph : List (String × Json))
    (manifest : List (String × Json)) : Except String RunState :=
  foldE (processKind oracle dumpY ph) initRunState manifest

/-! ## Well-formedness: every mapping in the value has unique keys.
Values parsed from JSON/YAML by the source always satisfy this (Python dicts
cannot hold duplicate keys). -/

mutual
def wfJson : Json → Bool
  | .null => true
  | .b _ => true
  | .i _ => true
  | .s _ => true
  | .arr xs => wfJsonList xs
  | .obj kvs => nodupKeys kvs && wfJsonKvs kvs

def wfJsonList : List Json → Bool
  | [] => true
  | x :: xs => wfJson x && wfJsonList xs

def wfJsonKvs : List (String × Json) → Bool
  | [] => true
  | (_, v) :: rest => wfJson v && wfJsonKvs rest
end

theorem wfJson_obj_nodup (kvs : List (String × Json)) (h : wfJson (.obj kvs) = true) :
    nodupKeys kvs = true := by
  simp only [wfJson, Bool.and_eq_true] at h
  exact h.1

theorem wfJson_obj_kvs (kvs : List (String × Json)) (h : wfJson (.obj kvs) = true) :
    wfJsonKvs kvs = true := by
  simp only [wfJson, Bool.and_eq_true] at h
  exact h.2

theorem wfJson_of_getKey (kvs : List (String × Json)) (k : String) (v : Json)
    (hw : wfJsonKvs kvs = true) (hg : getKey kvs k = some v) : wfJson v = true := by
  induction kvs with
  | nil => simp at hg
  | cons p rest ih =>
    obtain ⟨k0, v0⟩ := p
    rw [wfJsonKvs, Bool.and_eq_true] at hw
    by_cases hk : k0 = k
    · subst hk
      rw [getKey_cons_self] at hg
      obtain rfl : v0 = v := by injection hg
      exact hw.1
    · rw [getKey_cons_ne _ _ _ _ hk] at hg
      exact ih hw.2 hg

/-! ## C1 — totality of the sanitizer -/

/-- C1: the claim states that `sanitize` never fails, and in particular
succeeds on a record of kind `"Service"` lacking a `metadata` mapping.  The
code contradicts this: for `{"kind": "Service", "spec": {"ports": null}}`
line 275 evaluates `data.get('metadata').get('name')` on `None` and raises
`AttributeError` (embedded as `none`). -/
theorem claim_C1_sanitizer_crash :
    clean (Json.obj [("kind", Json.s "Service"), ("spec", Json.obj [("ports", Json.null)])]) =
      none := rfl

/-! ## C9 — idempotence of the Output Writer's final trim -/

theorem dropWhile_subsume {α : Type} (p q : α → Bool) (h : ∀ c, q c = true → p c = true) :
    ∀ l : List α, List.dropWhile q (List.dropWhile p l) = List.dropWhile p l := by
  intro l
  induction l with
  | nil => rfl
  | cons c cs ih =>
    cases hp : p c with
    | true => rw [List.dropWhile_cons_of_pos hp]; exact ih
    | false =>
      have hq : q c = false := by
        cases hqc : q c with
        | false => rfl
        | true => rw [h c hqc] at hp; exact absurd hp (by simp)
      rw [List.dropWhile_cons_of_neg (by simp [hp]), List.dropWhile_cons_of_neg (by simp [hq])]

theorem head_dropWhile_false {α : Type} (p : α → Bool) (l : List α) (c : α)
    (h : (List.dropWhile p l).head? = some c) : p c = false := by
  induction l with
  | nil => simp at h
  | cons x xs ih =>
    cases hp : p x with
    | true => rw [List.dropWhile_cons_of_pos hp] at h; exact ih h
    | false =>
      rw [List.dropWhile_cons_of_neg (by simp [hp])] at h
      simp only [List.head?_cons, Option.some.injEq] at h
      subst h
      exact hp

theorem cleanupContent_data (content : String) :
    (cleanupContent content).data =
      List.reverse (List.dropWhile (fun c => [('\n' : Char), '-'].contains c)
        (List.reverse content.data)) := by
  show List.reverse (List.dropWhile _ (List.reverse (List.reverse (List.dropWhile _ (List.reverse content.data))))) = _
  rw [List.reverse_reverse]
  rw [dropWhile_subsume _ _ ?_]
  intro c hc
  simp only [List.contains_cons] at hc ⊢
  rcases Bool.or_eq_true_iff.mp hc with h1 | h2
  · exact Bool.or_eq_true_iff.mpr (Or.inl h1)
  · simp at h2

/-- C9: the final trim pass of the Output Writer is idempotent, and the
trimmed content never ends in a boundary-marker character or a newline. -/
theorem claim_C9_trim_idem (content : String) :
    cleanupContent (cleanupContent content) = cleanupContent content ∧
      (cleanupContent content).data.getLast? ≠ some '-' ∧
      (cleanupContent content).data.getLast? ≠ some '\n' := by
  have hdata := cleanupContent_data content
  constructor
  · apply String.ext
    rw [cleanupContent_data, hdata, List.reverse_reverse,
      dropWhile_subsume _ _ (fun c hc => hc)]
  · have hlast : (cleanupContent content).data.getLast? =
        (List.dropWhile (fun c => [('\n' : Char), '-'].contains c)
          (List.reverse content.data)).head? := by
      rw [hdata, List.getLast?_reverse]
    constructor
    · intro hcontra
      rw [hlast] at hcontra
      have := head_dropWhile_false _ _ _ hcontra
      simp at this
    · intro hcontra
      rw [hlast] at hcontra
      have := head_dropWhile_false _ _ _ hcontra
      simp at this

/-! ## Path lemmas for the Placeholder Engine -/

theorem getPath_setAtPath_frame (parts : List String) :
    ∀ (q : List String) (d v : Json),
      List.isPrefixOf parts q = false → List.isPrefixOf q parts = false →
      getPath (setAtPath d parts v) q = getPath d q := by
  induction parts with
  | nil =>
    intro q d v h2 _
    simp [List.isPrefixOf] at h2
  | cons p rest ih =>
    intro q d v h2 h3
    cases q with
    | nil => simp [List.isPrefixOf] at h3
    | cons qh qt =>
      have h2' : ((p == qh) && List.isPrefixOf rest qt) = false := h2
      have h3' : ((qh == p) && List.isPrefixOf qt rest) = false := h3
      by_cases hpq : qh = p
      · subst hpq
        simp only [beq_self_eq_true, Bool.true_and] at h2' h3'
        cases rest with
        | nil => simp [List.isPrefixOf] at h2'
        | cons p2 ps =>
          cases d with
          | obj kvs =>
            cases hgk : getKey kvs qh with
            | none => simp [setAtPath, hgk]
            | some c =>
              simp only [setAtPath, hgk]
              simp only [getPath, getKey_setKey_self, hgk]
              exact ih qt c v h2' h3'
          | null => rfl
          | b x => rfl
          | i n => rfl
          | s st => rfl
          | arr xs => rfl
      · cases rest with
        | nil =>
          cases d with
          | obj kvs =>
            simp only [setAtPath, getPath]
            rw [getKey_setKey_ne kvs p qh v hpq]
          | null => rfl
          | b x => rfl
          | i n => rfl
          | s st => rfl
          | arr xs => rfl
        | cons p2 ps =>
          cases d with
          | obj kvs =>
            cases hgk : getKey kvs p with
            | none => simp [setAtPath, hgk]
            | some c =>
              simp only [setAtPath, hgk, getPath]
              rw [getKey_setKey_ne kvs p qh _ hpq]
          | null => rfl
          | b x => rfl
          | i n => rfl
          | s st => rfl
          | arr xs => rfl

theorem getPath_setAtPath_self (parts : List String) :
    ∀ (d : Json) (c : List (String × Json)) (v : Json), parts ≠ [] →
      getPath d parts.dropLast = some (.obj c) →
      getPath (setAtPath d parts v) parts = some v := by
  induction parts with
  | nil => intro d c v h; exact absurd rfl h
  | cons p rest ih =>
    intro d c v _ hnav
    cases rest with
    | nil =>
      simp only [List.dropLast_single, getPath, Option.some.injEq] at hnav
      subst hnav
      simp [setAtPath, getPath, getKey_setKey_self]
    | cons p2 ps =>
      have hdl : (p :: p2 :: ps).dropLast = p :: (p2 :: ps).dropLast := rfl
      rw [hdl] at hnav
      cases d with
      | obj kvs =>
        cases hgk : getKey kvs p with
        | none => simp [getPath, hgk] at hnav
        | some c1 =>
          simp only [getPath, hgk] at hnav
          simp only [setAtPath, hgk, getPath, getKey_setKey_self]
          exact ih c1 c v (by simp) hnav
      | null => simp [getPath] at hnav
      | b x => simp [getPath] at hnav
      | i n => simp [getPath] at hnav
      | s st => simp [getPath] at hnav
      | arr xs => simp [getPath] at hnav

/-- `add_placeholders` with a single-rule rule set reduces to applying that
one rule. -/
theorem add_placeholders_singleton (kind name path phn : String) (d : Json) :
    add_placeholders
        [(kind, Json.arr [Json.obj [(name, Json.arr [Json.obj [(path, Json.s phn)]])]])]
        kind name d =
      applyRulePair d path (Json.s phn) := by
  simp [add_placeholders, findConfig, Json.truthy, applyRuleDict]

/-! ## C3 / C8 — Placeholder Engine behaviour -/

/-- C3: with no rule-set entry for the kind (or a non-sequence entry, or no
rule group keyed by the resource name) the Placeholder Engine returns the
record unchanged; a resolving rule `{path -> placeholderName}` overwrites
exactly the addressed leaf with the literal `"||placeholderName||"`, leaving
every path not comparable to the addressed one unchanged. -/
theorem claim_C3_placeholder_engine (kind name path phn : String) (d : Json)
    (q : List String) (c : List (String × Json))
    (hlen : 2 ≤ (pySplitPipe path).length)
    (hnav : getPath d (pySplitPipe path).dropLast = some (.obj c))
    (hq1 : List.isPrefixOf (pySplitPipe path) q = false)
    (hq2 : List.isPrefixOf q (pySplitPipe path) = false) :
    (∀ ph d2, getKey ph kind = none → add_placeholders ph kind name d2 = d2) ∧
    (∀ ph d2 cfgv, getKey ph kind = some cfgv → (∀ l, cfgv ≠ Json.arr l) →
      add_placeholders ph kind name d2 = d2) ∧
    (∀ ph d2 items, getKey ph kind = some (Json.arr items) → findConfig items name = none →
      add_placeholders ph kind name d2 = d2) ∧
    add_placeholders
        [(kind, Json.arr [Json.obj [(name, Json.arr [Json.obj [(path, Json.s phn)]])]])]
        kind name d =
      setAtPath d (pySplitPipe path) (Json.s ("||" ++ phn ++ "||")) ∧
    getPath
        (add_placeholders
          [(kind, Json.arr [Json.obj [(name, Json.arr [Json.obj [(path, Json.s phn)]])]])]
          kind name d)
        (pySplitPipe path) = some (Json.s ("||" ++ phn ++ "||")) ∧
    getPath
        (add_placeholders
          [(kind, Json.arr [Json.obj [(name, Json.arr [Json.obj [(path, Json.s phn)]])]])]
          kind name d)
        q = getPath d q := by
  have h4 : add_placeholders
      [(kind, Json.arr [Json.obj [(name, Json.arr [Json.obj [(path, Json.s phn)]])]])]
      kind name d =
      setAtPath d (pySplitPipe path) (Json.s ("||" ++ phn ++ "||")) := by
    rw [add_placeholders_singleton]
    simp only [applyRulePair, pyStr, if_neg (Nat.not_lt.mpr hlen), hnav]
  refine ⟨?_, ?_, ?_, h4, ?_, ?_⟩
  · intro ph d2 h
    cases ph with
    | nil => rfl
    | cons p rest => simp [add_placeholders, h]
  · intro ph d2 cfgv hgk hne
    cases ph with
    | nil => simp at hgk
    | cons p rest =>
      cases cfgv with
      | arr l => exact absurd rfl (hne l)
      | null => simp [add_placeholders, hgk]
      | b x => simp [add_placeholders, hgk]
      | i n => simp [add_placeholders, hgk]
      | s st => simp [add_placeholders, hgk]
      | obj kvs => simp [add_placeholders, hgk]
  · intro ph d2 items hgk hfc
    cases ph with
    | nil => simp at hgk
    | cons p rest => simp [add_placeholders, hgk, hfc]
  · rw [h4]
    exact getPath_setAtPath_self _ d c _
      (fun he => by rw [he] at hlen; simp at hlen) hnav
  · rw [h4]
    exact getPath_setAtPath_frame _ q d _ hq1 hq2

/-- C3 witness: the spec's own example — rule `{"data|LOG_DIR":
"DRUID_LOG_DIR"}` for `ConfigMaps`/`druid-config` rewrites
`record["data"]["LOG_DIR"]` and nothing else. -/
theorem claim_C3_witness :
    add_placeholders
        [("ConfigMaps", Json.arr [Json.obj [("druid-config",
          Json.arr [Json.obj [("data|LOG_DIR", Json.s "DRUID_LOG_DIR")]])]])]
        "ConfigMaps" "druid-config"
        (Json.obj [("data", Json.obj [("LOG_DIR", Json.s "/old")]), ("x", Json.i 1)]) =
      setAtPath (Json.obj [("data", Json.obj [("LOG_DIR", Json.s "/old")]), ("x", Json.i 1)])
        (pySplitPipe "data|LOG_DIR") (Json.s ("||" ++ "DRUID_LOG_DIR" ++ "||")) :=
  (claim_C3_placeholder_engine "ConfigMaps" "druid-config" "data|LOG_DIR" "DRUID_LOG_DIR"
    (Json.obj [("data", Json.obj [("LOG_DIR", Json.s "/old")]), ("x", Json.i 1)])
    ["x"] [("LOG_DIR", Json.s "/old")]
    (by decide) rfl rfl rfl).2.2.2.1

/-- C8: a placeholder rule whose path has fewer than two segments, or whose
non-final segments do not resolve to a mapping containing the segment key, is
silently skipped: the record is returned unchanged and no error is raised. -/
theorem claim_C8_path_skip (kind name path phn : String) (d : Json) :
    ((pySplitPipe path).length < 2 →
      add_placeholders
        [(kind, Json.arr [Json.obj [(name, Json.arr [Json.obj [(path, Json.s phn)]])]])]
        kind name d = d) ∧
    (getPath d (pySplitPipe path).dropLast = none →
      add_placeholders
        [(kind, Json.arr [Json.obj [(name, Json.arr [Json.obj [(path, Json.s phn)]])]])]
        kind name d = d) ∧
    (∀ cv, getPath d (pySplitPipe path).dropLast = some cv →
      (∀ kvs, cv ≠ Json.obj kvs) →
      add_placeholders
        [(kind, Json.arr [Json.obj [(name, Json.arr [Json.obj [(path, Json.s phn)]])]])]
        kind name d = d) := by
  refine ⟨?_, ?_, ?_⟩
  · intro h
    rw [add_placeholders_singleton]
    simp only [applyRulePair, if_pos h]
  · intro hnone
    rw [add_placeholders_singleton]
    by_cases hl : (pySplitPipe path).length < 2
    · simp only [applyRulePair, if_pos hl]
    · simp only [applyRulePair, if_neg hl, hnone]
  · intro cv hsome hne
    rw [add_placeholders_singleton]
    by_cases hl : (pySplitPipe path).length < 2
    · simp only [applyRulePair, if_pos hl]
    · cases cv with
      | obj kvs => exact absurd rfl (hne kvs)
      | null => simp only [applyRulePair, if_neg hl, hsome]
      | b x => simp only [applyRulePair, if_neg hl, hsome]
      | i n => simp only [applyRulePair, if_neg hl, hsome]
      | s st => simp only [applyRulePair, if_neg hl, hsome]
      | arr xs => simp only [applyRulePair, if_neg hl, hsome]

/-- C8 witness: the spec's own example — a single-segment path `"a"` leaves
any record unchanged. -/
theorem claim_C8_witness :
    add_placeholders
        [("K", Json.arr [Json.obj [("n", Json.arr [Json.obj [("a", Json.s "P")]])]])]
        "K" "n" (Json.obj [("a", Json.i 1)]) = Json.obj [("a", Json.i 1)] :=
  (claim_C8_path_skip "K" "n" "a" "P" (Json.obj [("a", Json.i 1)])).1 (by decide)

/-! ## C6 — Search/Replace Engine refinement -/

theorem srItems_fold_eq (rules : List (String × String)) :
    ∀ t, (rules.map (fun r => Json.obj [(r.1, Json.s r.2)])).foldl srItem t =
      rules.foldl (fun t r => pyReplace t r.1 ("||" ++ r.2 ++ "||")) t := by
  induction rules with
  | nil => intro t; rfl
  | cons r rs ih =>
    intro t
    simp only [List.map_cons, List.foldl_cons]
    exact ih _

/-- C6: with no `Search_and_Replace` rules the engine returns the record
unchanged; with a rule sequence of `{literalString -> placeholderName}`
entries it equals the spec-side engine: serialize the whole record, fold the
global literal replacements in declared order (each rule seeing the previous
rule's output), and re-parse. -/
theorem claim_C6_search_replace (ph : List (String × Json)) (data : Json)
    (items : List Json) (rules : List (String × String))
    (hne : ph ≠ [])
    (hsr : getKey ph "Search_and_Replace" = some (Json.arr items))
    (hitems : items = rules.map (fun r => Json.obj [(r.1, Json.s r.2)])) :
    (∀ d2, apply_search_replace [] d2 = some d2) ∧
    (∀ ph2 d2, getKey ph2 "Search_and_Replace" = none →
      apply_search_replace ph2 d2 = some d2) ∧
    (∀ d2, searchReplaceSpec none d2 = some d2) ∧
    apply_search_replace ph data = searchReplaceSpec (some rules) data := by
  refine ⟨fun d2 => rfl, ?_, fun d2 => rfl, ?_⟩
  · intro ph2 d2 h
    cases ph2 with
    | nil => rfl
    | cons p rest => simp [apply_search_replace, h]
  · cases ph with
    | nil => exact absurd rfl hne
    | cons p rest =>
      simp only [apply_search_replace, hsr, hitems, searchReplaceSpec]
      rw [srItems_fold_eq]

/-- C6 witness: the spec's own example rule `{"10.0.0.1": "CLUSTER_IP"}`. -/
theorem claim_C6_witness :
    apply_search_replace
        [("Search_and_Replace", Json.arr [Json.obj [("10.0.0.1", Json.s "CLUSTER_IP")]])]
        (Json.obj [("ip", Json.s "10.0.0.1")]) =
      searchReplaceSpec (some [("10.0.0.1", "CLUSTER_IP")])
        (Json.obj [("ip", Json.s "10.0.0.1")]) :=
  (claim_C6_search_replace
    [("Search_and_Replace", Json.arr [Json.obj [("10.0.0.1", Json.s "CLUSTER_IP")]])]
    (Json.obj [("ip", Json.s "10.0.0.1")])
    [Json.obj [("10.0.0.1", Json.s "CLUSTER_IP")]]
    [("10.0.0.1", "CLUSTER_IP")]
    (by simp) rfl rfl).2.2.2

/-! ## C7 — not-found continues, reparse corruption is fatal -/

/-- C7: in the per-resource loop, a fetch returning no data yields `.ok` with
only the attempted counter and call trace advanced (the loop continues with
the next resource), while a reparse failure after search/replace yields
`.error`, and an `.error` from any iteration aborts the whole remaining
fold immediately. -/
theorem claim_C7_error_handling :
    (∀ (oracle : Oracle) (dumpY : Json → String) (ph : List (String × Json))
        (kind : String) (st : RunState) (nm0 : String) (nsv : Json),
      st.ns = some nsv → (pyStrip nm0).isEmpty = false →
      oracle kind (pyStrip nm0) (effNsOf (pyStrip nm0) nsv) = none →
      processName oracle dumpY ph kind st (Json.s nm0) =
        .ok {st with count := st.count + 1,
                     calls := st.calls ++ [⟨kind, pyStrip nm0, effNsOf (pyStrip nm0) nsv⟩]}) ∧
    (∀ (oracle : Oracle) (dumpY : Json → String) (ph : List (String × Json))
        (kind : String) (st : RunState) (nm0 : String) (nsv raw jd : Json),
      st.ns = some nsv → (pyStrip nm0).isEmpty = false →
      oracle kind (pyStrip nm0) (effNsOf (pyStrip nm0) nsv) = some raw →
      clean raw = some jd → jd.truthy = true →
      apply_search_replace ph (add_placeholders ph kind (pyStrip nm0) jd) = none →
      processName oracle dumpY ph kind st (Json.s nm0) = .error "JSONDecodeError") ∧
    (∀ (oracle : Oracle) (dumpY : Json → String) (ph : List (String × Json))
        (kind : String) (st : RunState) (nmJ : Json) (rest : List Json) (e : String),
      processName oracle dumpY ph kind st nmJ = .error e →
      foldE (processName oracle dumpY ph kind) st (nmJ :: rest) = .error e) ∧
    (∀ (oracle : Oracle) (dumpY : Json → String) (ph : List (String × Json))
        (st : RunState) (entry : String × Json) (entries : List (String × Json)) (e : String),
      processKind oracle dumpY ph st entry = .error e →
      foldE (processKind oracle dumpY ph) st (entry :: entries) = .error e) := by
  refine ⟨?_, ?_, ?_, ?_⟩
  · intro oracle dumpY ph kind st nm0 nsv hns hempty horacle
    simp [processName, hempty, hns, fetch_resource, horacle]
  · intro oracle dumpY ph kind st nm0 nsv raw jd hns hempty horacle hclean htruthy hasr
    simp [processName, hempty, hns, fetch_resource, horacle, hclean, htruthy, hasr]
  · intro oracle dumpY ph kind st nmJ rest e h
    simp [foldE, h]
  · intro oracle dumpY ph st entry entries e h
    simp [foldE, h]

/-- C7 witness: a not-found fetch continues; a quote-destroying
`Search_and_Replace` rule makes the reparse fail fatally. -/
theorem claim_C7_witness :
    processName (fun _ _ _ => none) (fun _ => "Y\n") [] "ConfigMaps"
        ⟨some (Json.s "ns1"), 0, 0, [], []⟩ (Json.s "cm1") =
      .ok ⟨some (Json.s "ns1"), 1, 0, [], [⟨"ConfigMaps", "cm1", Json.s "ns1"⟩]⟩ ∧
    processName (fun _ _ _ => some (Json.obj [("a", Json.s "b"), ("status", Json.null)]))
        (fun _ => "Y\n") [("Search_and_Replace", Json.arr [Json.obj [("\"", Json.s "X")]])]
        "ConfigMaps" ⟨some (Json.s "ns1"), 0, 0, [], []⟩ (Json.s "cm1") =
      .error "JSONDecodeError" :=
  ⟨claim_C7_error_handling.1 _ _ _ _ _ "cm1" (Json.s "ns1") rfl rfl rfl,
   claim_C7_error_handling.2.1 _ _ _ _ _ "cm1" (Json.s "ns1")
     (Json.obj [("a", Json.s "b"), ("status", Json.null)])
     (Json.obj [("a", Json.s "b")]) rfl rfl rfl rfl rfl rfl⟩

/-! ## C10 — missing prior namespace capture is fatal -/

/-- A manifest name that actually triggers a fetch: a string whose stripped
form is non-empty. -/
def validNameB : Json → Bool
  | .s st => !(pyStrip st).isEmpty
  | _ => false

/-- A manifest entry that neither fetches nor captures a namespace: a
non-list value, or a non-`Namespaces` list without fetchable names. -/
def inertEntryB : String × Json → Bool
  | (k, .arr names) => (k != "Namespaces") && names.all (fun x => !(validNameB x))
  | _ => true

theorem processName_invalid (oracle : Oracle) (dumpY : Json → String)
    (ph : List (String × Json)) (kind : String) (st : RunState) (nmJ : Json)
    (h : validNameB nmJ = false) :
    processName oracle dumpY ph kind st nmJ = .ok st := by
  cases nmJ with
  | s nm0 =>
    have h1 : (pyStrip nm0).isEmpty = true := by
      simpa [validNameB] using h
    simp [processName, h1]
  | null => rfl
  | b x => rfl
  | i n => rfl
  | arr xs => rfl
  | obj kvs => rfl

theorem foldE_names_invalid (oracle : Oracle) (dumpY : Json → String)
    (ph : List (String × Json)) (kind : String) (names : List Json)
    (h : names.all (fun x => !(validNameB x)) = true) :
    ∀ st, foldE (processName oracle dumpY ph kind) st names = .ok st := by
  induction names with
  | nil => intro st; rfl
  | cons x xs ih =>
    intro st
    simp only [List.all_cons, Bool.and_eq_true] at h
    have h1 : validNameB x = false := by simpa using h.1
    simp only [foldE]
    rw [processName_invalid oracle dumpY ph kind st x h1]
    exact ih h.2 st

theorem processKind_inert (oracle : Oracle) (dumpY : Json → String)
    (ph : List (String × Json)) (st : RunState) (entry : String × Json)
    (h : inertEntryB entry = true) :
    processKind oracle dumpY ph st entry = .ok st := by
  obtain ⟨k, v⟩ := entry
  cases v with
  | arr names =>
    simp only [inertEntryB, Bool.and_eq_true, bne_iff_ne, ne_eq] at h
    simp only [processKind, if_neg h.1]
    exact foldE_names_invalid oracle dumpY ph k names h.2 st
  | null => rfl
  | b x => rfl
  | i n => rfl
  | s st2 => rfl
  | obj kvs => rfl

theorem foldE_kinds_inert (oracle : Oracle) (dumpY : Json → String)
    (ph : List (String × Json)) (pre : List (String × Json))
    (h : pre.all inertEntryB = true) :
    ∀ st, foldE (processKind oracle dumpY ph) st pre = .ok st := by
  induction pre with
  | nil => intro st; rfl
  | cons x xs ih =>
    intro st
    simp only [List.all_cons, Bool.and_eq_true] at h
    simp only [foldE]
    rw [processKind_inert oracle dumpY ph st x h.1]
    exact ih h.2 st

theorem foldE_append {σ α : Type} (f : σ → α → Except String σ) (l1 l2 : List α) :
    ∀ st, foldE f st (l1 ++ l2) =
      (match foldE f st l1 with
       | .error e => .error e
       | .ok st2 => foldE f st2 l2) := by
  induction l1 with
  | nil => intro st; rfl
  | cons x xs ih =>
    intro st
    simp only [List.cons_append, foldE]
    cases f st x with
    | error e => rfl
    | ok st2 => exact ih st2

theorem foldE_names_nameError (oracle : Oracle) (dumpY : Json → String)
    (ph : List (String × Json)) (kind : String) (names : List Json)
    (h : names.any validNameB = true) :
    ∀ st : RunState, st.ns = none →
      foldE (processName oracle dumpY ph kind) st names =
        .error "NameError: namespace_name" := by
  induction names with
  | nil => simp at h
  | cons x xs ih =>
    intro st hns
    simp only [foldE]
    cases hv : validNameB x with
    | true =>
      cases x with
      | s nm0 =>
        have hempty : (pyStrip nm0).isEmpty = false := by
          simpa [validNameB] using hv
        simp [processName, hempty, hns]
      | null => simp [validNameB] at hv
      | b b2 => simp [validNameB] at hv
      | i n => simp [validNameB] at hv
      | arr xs2 => simp [validNameB] at hv
      | obj kvs => simp [validNameB] at hv
    | false =>
      rw [processName_invalid oracle dumpY ph kind st x hv]
      have hany : xs.any validNameB = true := by
        simp only [List.any_cons, Bool.or_eq_true] at h
        rcases h with h1 | h2
        · rw [hv] at h1; exact absurd h1 (by simp)
        · exact h2
      exact ih hany st hns

/-- C10: if, before any `"Namespaces"` list entry, the manifest has a kind
with a fetchable name, the run does not degrade to best-effort handling of
that resource: it aborts fatally, because the local `namespace_name` is read
before it was ever assigned (`NameError`, reaching the generic handler that
exits). -/
theorem claim_C10_namespace_fatal (pre : List (String × Json)) (k : String)
    (l : List Json) (rest : List (String × Json)) (oracle : Oracle)
    (dumpY : Json → String) (ph : List (String × Json))
    (hpre : pre.all inertEntryB = true)
    (hk : k ≠ "Namespaces")
    (hl : l.any validNameB = true) :
    runLoop oracle dumpY ph (pre ++ (k, Json.arr l) :: rest) =
      .error "NameError: namespace_name" := by
  show foldE (processKind oracle dumpY ph) initRunState (pre ++ (k, Json.arr l) :: rest) = _
  rw [foldE_append]
  rw [foldE_kinds_inert oracle dumpY ph pre hpre initRunState]
  simp only [foldE, processKind, if_neg hk]
  rw [foldE_names_nameError oracle dumpY ph k l hl initRunState rfl]

/-- C10 witness: a manifest whose first fetchable kind precedes any
`Namespaces` entry aborts the run. -/
theorem claim_C10_witness :
    runLoop (fun _ _ _ => none) (fun _ => "Y\n") []
        [("Pods", Json.i 3), ("ConfigMaps", Json.arr [Json.s "cm1"])] =
      .error "NameError: namespace_name" :=
  claim_C10_namespace_fatal [("Pods", Json.i 3)] "ConfigMaps" [Json.s "cm1"] []
    (fun _ _ _ => none) (fun _ => "Y\n") [] rfl (by decide) rfl

/-! ## C2 — which namespace each fetch uses -/

/-- Result disposition of one loop-body iteration: either the state is
untouched, or exactly one fetch call was made, with the namespace argument
`effNsOf name nsv` computed by `fetch_resource` from the current
`namespace_name` value `nsv`, and the captured namespace unchanged. -/
theorem processName_ok_cases (oracle : Oracle) (dumpY : Json → String)
    (ph : List (String × Json)) (kind : String) (st : RunState) (nmJ : Json)
    (st' : RunState)
    (h : processName oracle dumpY ph kind st nmJ = .ok st') :
    st' = st ∨
    (∃ nm nsv, st.ns = some nsv ∧ st'.ns = st.ns ∧
      st'.calls = st.calls ++ [⟨kind, nm, effNsOf nm nsv⟩]) := by
  cases nmJ with
  | s nm0 =>
    cases hemp : (pyStrip nm0).isEmpty with
    | true =>
      simp only [processName, hemp, if_true] at h
      left
      injection h with h2
      exact h2.symm
    | false =>
      simp only [processName, hemp, Bool.false_eq_true, if_false] at h
      cases hns2 : st.ns with
      | none =>
        simp only [hns2] at h
        exact Except.noConfusion h
      | some nsv =>
        simp only [hns2] at h
        cases hfr : (fetch_resource oracle kind (pyStrip nm0) nsv).2 with
        | error e =>
          simp only [hfr] at h
          exact Except.noConfusion h
        | ok jd0 =>
          simp only [hfr] at h
          cases jd0 with
          | none =>
            injection h with h2
            subst h2
            right
            exact ⟨pyStrip nm0, nsv, rfl, rfl, rfl⟩
          | some jd =>
            cases htr : jd.truthy with
            | false =>
              simp only [htr, Bool.false_eq_true, if_false] at h
              injection h with h2
              subst h2
              right
              exact ⟨pyStrip nm0, nsv, rfl, rfl, rfl⟩
            | true =>
              simp only [htr, if_true] at h
              cases hasr : apply_search_replace ph (add_placeholders ph kind (pyStrip nm0) jd) with
              | none =>
                simp only [hasr] at h
                exact Except.noConfusion h
              | some rep =>
                simp only [hasr] at h
                cases hde : (dumpY rep).isEmpty with
                | true =>
                  simp only [hde, if_true] at h
                  injection h with h2
                  subst h2
                  right
                  exact ⟨pyStrip nm0, nsv, rfl, rfl, rfl⟩
                | false =>
                  simp only [hde, Bool.false_eq_true, if_false] at h
                  injection h with h2
                  subst h2
                  right
                  exact ⟨pyStrip nm0, nsv, rfl, rfl, rfl⟩
  | null => left; injection h with h2; exact h2.symm
  | b x => left; injection h with h2; exact h2.symm
  | i n => left; injection h with h2; exact h2.symm
  | arr xs => left; injection h with h2; exact h2.symm
  | obj kvs => left; injection h with h2; exact h2.symm

/-- The invariant carried through a run for C2. -/
def NsInv (n0 : Json) (st : RunState) : Prop :=
  (st.ns = none ∨ st.ns = some n0) ∧ ∀ c ∈ st.calls, c.ns = effNsOf c.name n0

theorem processName_ns_invariant (oracle : Oracle) (dumpY : Json → String)
    (ph : List (String × Json)) (kind : String) (n0 : Json) (st st' : RunState)
    (nmJ : Json) (hp : NsInv n0 st)
    (h : processName oracle dumpY ph kind st nmJ = .ok st') : NsInv n0 st' := by
  rcases processName_ok_cases oracle dumpY ph kind st nmJ st' h with h1 | ⟨nm, nsv, hnsv, hns', hcalls⟩
  · rw [h1]; exact hp
  · have hn0 : nsv = n0 := by
      rcases hp.1 with h2 | h2
      · rw [h2] at hnsv; exact absurd hnsv (by simp)
      · rw [h2] at hnsv; injection hnsv with h3; exact h3.symm
    constructor
    · rw [hns']; exact hp.1
    · intro c hc
      rw [hcalls] at hc
      rcases List.mem_append.mp hc with h2 | h2
      · exact hp.2 c h2
      · have : c = ⟨kind, nm, effNsOf nm nsv⟩ := by simpa using h2
        rw [this, hn0]

theorem foldE_invariant_mem {σ α : Type} (f : σ → α → Except String σ) (P : σ → Prop) :
    ∀ (l : List α), (∀ s a s', a ∈ l → P s → f s a = .ok s' → P s') →
      ∀ s s', P s → foldE f s l = .ok s' → P s' := by
  intro l
  induction l with
  | nil =>
    intro _ s s' hP h
    injection h with h2
    rw [← h2]; exact hP
  | cons x xs ih =>
    intro step s s' hP h
    simp only [foldE] at h
    cases hfx : f s x with
    | error e => rw [hfx] at h; exact absurd h (by simp)
    | ok s1 =>
      rw [hfx] at h
      exact ih (fun s a s' ha => step s a s' (List.mem_cons_of_mem x ha)) s1 s'
        (step s x s1 (List.mem_cons_self x xs) hP hfx) h

theorem processKind_ns_invariant (oracle : Oracle) (dumpY : Json → String)
    (ph : List (String × Json)) (n0 : Json) (st st' : RunState)
    (entry : String × Json)
    (hent : ∀ lst, entry = ("Namespaces", Json.arr lst) → lst.head? = some n0)
    (hp : NsInv n0 st)
    (h : processKind oracle dumpY ph st entry = .ok st') : NsInv n0 st' := by
  obtain ⟨k, v⟩ := entry
  cases v with
  | arr names =>
    by_cases hk : k = "Namespaces"
    · subst hk
      simp only [processKind, if_pos rfl] at h
      cases names with
      | nil => exact absurd h (by simp)
      | cons n1 t =>
        have hn1 : n1 = n0 := by
          have := hent (n1 :: t) rfl
          simpa using this
        have hpN : NsInv n0 {st with ns := some n1} := by
          constructor
          · right; rw [hn1]
          · exact hp.2
        exact foldE_invariant_mem _ (NsInv n0) (n1 :: t)
          (fun s a s' _ hPs hfa =>
            processName_ns_invariant oracle dumpY ph "Namespaces" n0 s s' a hPs hfa)
          _ st' hpN h
    · simp only [processKind, if_neg hk] at h
      exact foldE_invariant_mem _ (NsInv n0) names
        (fun s a s' _ hPs hfa =>
          processName_ns_invariant oracle dumpY ph k n0 s s' a hPs hfa)
        st st' hp h
  | null => injection h with h2; rw [← h2]; exact hp
  | b x => injection h with h2; rw [← h2]; exact hp
  | i n => injection h with h2; rw [← h2]; exact hp
  | s st2 => injection h with h2; rw [← h2]; exact hp
  | obj kvs => injection h with h2; rw [← h2]; exact hp

/-- C2 (amended): in any completed run over a manifest whose `"Namespaces"`
list entries all start with `n0`, every fetch performed used the namespace
`effNsOf name n0` — that is, the captured namespace `n0`, except for the two
fluentd monitoring resource names, which `fetch_resource` always sends to
`"kube-system"`. -/
theorem claim_C2_amended (oracle : Oracle) (dumpY : Json → String)
    (ph manifest : List (String × Json)) (st : RunState) (n0 : Json)
    (c : FetchCall)
    (hns : ∀ lst, ("Namespaces", Json.arr lst) ∈ manifest → lst.head? = some n0)
    (hrun : runLoop oracle dumpY ph manifest = .ok st)
    (hc : c ∈ st.calls) :
    c.ns = effNsOf c.name n0 := by
  have hinv : NsInv n0 st := by
    refine foldE_invariant_mem _ (NsInv n0) manifest ?_ initRunState st
      ⟨Or.inl rfl, by simp [initRunState]⟩ hrun
    intro s entry s' hmem hPs hstep
    refine processKind_ns_invariant oracle dumpY ph n0 s s' entry ?_ hPs hstep
    intro lst hlst
    exact hns lst (hlst ▸ hmem)
  exact hinv.2 c hc

/-- C2 counterexample: in a run whose captured namespace is `"ns1"`, the
resource name `mlisa-monitoring-fluentd` is fetched with namespace
`"kube-system"`, not the captured namespace — refuting "no per-name
exceptions". -/
theorem claim_C2_counterexample :
    runLoop (fun _ _ _ => none) (fun _ => "Y\n") []
        [("Namespaces", Json.arr [Json.s "ns1"]),
         ("DaemonSets", Json.arr [Json.s "mlisa-monitoring-fluentd"])] =
      .ok ⟨some (Json.s "ns1"), 2, 0, [],
           [⟨"Namespaces", "ns1", Json.s "ns1"⟩,
            ⟨"DaemonSets", "mlisa-monitoring-fluentd", Json.s "kube-system"⟩]⟩ ∧
    Json.s "kube-system" ≠ Json.s "ns1" :=
  ⟨rfl, by simp⟩

/-- C2 witness: instantiating the amended claim on a concrete completed run
and the concrete second call of its trace. -/
theorem claim_C2_witness :
    FetchCall.ns ⟨"ConfigMaps", "cm1", Json.s "ns1"⟩ =
      effNsOf (FetchCall.name ⟨"ConfigMaps", "cm1", Json.s "ns1"⟩) (Json.s "ns1") :=
  claim_C2_amended (fun _ _ _ => none) (fun _ => "Y\n") []
    [("Namespaces", Json.arr [Json.s "ns1"]), ("ConfigMaps", Json.arr [Json.s "cm1"])]
    ⟨some (Json.s "ns1"), 2, 0, [],
     [⟨"Namespaces", "ns1", Json.s "ns1"⟩, ⟨"ConfigMaps", "cm1", Json.s "ns1"⟩]⟩
    (Json.s "ns1") ⟨"ConfigMaps", "cm1", Json.s "ns1"⟩
    (by intro lst hmem
        simp only [List.mem_cons, List.not_mem_nil, or_false, Prod.mk.injEq] at hmem
        rcases hmem with ⟨-, h2⟩ | ⟨h1, -⟩
        · injection h2 with h3
          rw [h3]
          rfl
        · exact absurd h1 (by decide))
    rfl (by simp)

/-! ## Sanitizer stage lemmas (towards C4 and C5) -/

theorem setKey_ne_nil (kvs : List (String × Json)) (k : String) (v : Json) :
    setKey kvs k v ≠ [] := by
  cases kvs with
  | nil => simp
  | cons p rest =>
    obtain ⟨k0, v0⟩ := p
    by_cases hk : k0 = k
    · subst hk; simp
    · rw [setKey_cons_ne _ _ _ _ _ hk]; simp

theorem modifyPresent_cases (kvs out : List (String × Json)) (key : String)
    (f : Json → Option Json) (h : modifyPresent kvs key f = some out) :
    (getKey kvs key = none ∧ out = kvs) ∨
    (∃ v v', getKey kvs key = some v ∧ f v = some v' ∧ out = setKey kvs key v') := by
  unfold modifyPresent at h
  cases hg : getKey kvs key with
  | none =>
    simp only [hg] at h
    injection h with h2
    exact Or.inl ⟨rfl, h2.symm⟩
  | some v =>
    simp only [hg] at h
    cases hf : f v with
    | none =>
      simp only [hf] at h
      exact Option.noConfusion h
    | some v' =>
      simp only [hf] at h
      injection h with h2
      exact Or.inr ⟨v, v', rfl, hf, h2.symm⟩

theorem popObj_obj_cases (keys : List String) (v v' : Json) (h : popObj keys v = some v') :
    ∃ akv, v = .obj akv ∧ v' = .obj (popAll akv keys) := by
  cases v with
  | obj akv =>
    refine ⟨akv, rfl, ?_⟩
    simp only [popObj] at h
    injection h with h2
    exact h2.symm
  | null => exact Option.noConfusion h
  | b x => exact Option.noConfusion h
  | i n => exact Option.noConfusion h
  | s st => exact Option.noConfusion h
  | arr xs => exact Option.noConfusion h

/-- Second application of a `modifyPresent … (popObj keys)` step is a no-op
when the value at `key` (if any) is a mapping with those keys already gone. -/
theorem modifyPresent_popObj_noop (kvs2 : List (String × Json)) (key : String)
    (keys : List String)
    (h : getKey kvs2 key = none ∨
      (∃ akv, getKey kvs2 key = some (.obj akv) ∧ ∀ k ∈ keys, getKey akv k = none)) :
    modifyPresent kvs2 key (popObj keys) = some kvs2 := by
  unfold modifyPresent
  rcases h with h1 | ⟨akv, h1, h2⟩
  · rw [h1]
  · rw [h1]
    simp only [popObj]
    rw [popAll_of_getKey_none akv keys h2]
    rw [setKey_of_getKey_some kvs2 key _ h1]

/-- Full characterization of a successful `cleanMetadata` on a well-formed
metadata mapping: result shape, key uniqueness, preservation of untouched
keys, and idempotence. -/
theorem cleanMetadata_post (mkvs : List (String × Json)) (m' : Json)
    (hnd : nodupKeys mkvs = true) (hwk : wfJsonKvs mkvs = true)
    (h : cleanMetadata (.obj mkvs) = some m') :
    ∃ mkvs', m' = .obj mkvs' ∧
      nodupKeys mkvs' = true ∧
      (∀ k, k ∉ metaPopKeys → k ≠ "annotations" → k ≠ "labels" →
        k ≠ "ownerReferences" → getKey mkvs' k = getKey mkvs k) ∧
      cleanMetadata m' = some m' := by
  simp only [cleanMetadata, asObjKvs] at h
  cases hma : modifyPresent (popAll mkvs metaPopKeys) "annotations" (popObj annPopKeys) with
  | none =>
    simp only [hma] at h
    exact Option.noConfusion h
  | some mkvs2 =>
    simp only [hma] at h
    cases hml : modifyPresent mkvs2 "labels" (popObj ["helm.sh/chart"]) with
    | none =>
      simp only [hml] at h
      exact Option.noConfusion h
    | some mkvs3 =>
      simp only [hml] at h
      injection h with h2
      have hnd1 : nodupKeys (popAll mkvs metaPopKeys) = true := nodupKeys_popAll _ _ hnd
      have hannGet : ∀ k, k ≠ "annotations" →
          getKey mkvs2 k = getKey (popAll mkvs metaPopKeys) k := by
        intro k hk
        rcases modifyPresent_cases _ _ _ _ hma with ⟨_, hout⟩ | ⟨v, v', _, _, hout⟩
        · rw [hout]
        · rw [hout, getKey_setKey_ne _ _ _ _ hk]
      have hnd2 : nodupKeys mkvs2 = true := by
        rcases modifyPresent_cases _ _ _ _ hma with ⟨_, hout⟩ | ⟨v, v', hg, _, hout⟩
        · rw [hout]; exact hnd1
        · rw [hout]; exact nodupKeys_setKey _ _ _ (by rw [hg]; simp) hnd1
      have hlabGet : ∀ k, k ≠ "labels" → getKey mkvs3 k = getKey mkvs2 k := by
        intro k hk
        rcases modifyPresent_cases _ _ _ _ hml with ⟨_, hout⟩ | ⟨v, v', _, _, hout⟩
        · rw [hout]
        · rw [hout, getKey_setKey_ne _ _ _ _ hk]
      have hnd3 : nodupKeys mkvs3 = true := by
        rcases modifyPresent_cases _ _ _ _ hml with ⟨_, hout⟩ | ⟨v, v', hg, _, hout⟩
        · rw [hout]; exact hnd2
        · rw [hout]; exact nodupKeys_setKey _ _ _ (by rw [hg]; simp) hnd2
      have hnd4 : nodupKeys (popKey mkvs3 "ownerReferences") = true := nodupKeys_popKey _ _ hnd3
      have hg4 : ∀ k, k ≠ "ownerReferences" →
          getKey (popKey mkvs3 "ownerReferences") k = getKey mkvs3 k := by
        intro k hk
        exact getKey_popKey_ne _ _ _ hk
      refine ⟨popKey mkvs3 "ownerReferences", h2.symm, hnd4, ?_, ?_⟩
      · intro k hk1 hk2 hk3 hk4
        rw [hg4 k hk4, hlabGet k hk3, hannGet k hk2,
          getKey_popAll_not_mem _ _ _ hk1]
      · rw [← h2]
        simp only [cleanMetadata, asObjKvs]
        have hpopped : ∀ k ∈ metaPopKeys, getKey (popKey mkvs3 "ownerReferences") k = none := by
          intro k hk
          have hk4 : k ≠ "ownerReferences" := fun he =>
            (by decide : ("ownerReferences" : String) ∉ metaPopKeys) (he ▸ hk)
          have hk3 : k ≠ "labels" := fun he =>
            (by decide : ("labels" : String) ∉ metaPopKeys) (he ▸ hk)
          have hk2 : k ≠ "annotations" := fun he =>
            (by decide : ("annotations" : String) ∉ metaPopKeys) (he ▸ hk)
          rw [hg4 k hk4, hlabGet k hk3, hannGet k hk2]
          exact getKey_popAll_mem _ _ _ hk hnd
        rw [popAll_of_getKey_none _ _ hpopped]
        have hann2 : modifyPresent (popKey mkvs3 "ownerReferences") "annotations"
            (popObj annPopKeys) = some (popKey mkvs3 "ownerReferences") := by
          apply modifyPresent_popObj_noop
          rcases modifyPresent_cases _ _ _ _ hma with ⟨hg, hout⟩ | ⟨v, v', hg, hf, hout⟩
          · left
            rw [hg4 _ (by decide), hlabGet _ (by decide), hout]
            exact hg
          · right
            obtain ⟨akv, rfl, rfl⟩ := popObj_obj_cases _ _ _ hf
            refine ⟨popAll akv annPopKeys, ?_, ?_⟩
            · rw [hg4 _ (by decide), hlabGet _ (by decide), hout, getKey_setKey_self]
            · intro k hk
              have hndakv : nodupKeys akv = true := by
                have hga : getKey mkvs "annotations" = some (.obj akv) := by
                  rw [← getKey_popAll_not_mem mkvs metaPopKeys "annotations" (by decide)]
                  exact hg
                have := wfJson_of_getKey mkvs "annotations" _ hwk hga
                exact wfJson_obj_nodup _ this
              exact getKey_popAll_mem _ _ _ hk hndakv
        simp only [hann2]
        have hlab2 : modifyPresent (popKey mkvs3 "ownerReferences") "labels"
            (popObj ["helm.sh/chart"]) = some (popKey mkvs3 "ownerReferences") := by
          apply modifyPresent_popObj_noop
          rcases modifyPresent_cases _ _ _ _ hml with ⟨hg, hout⟩ | ⟨v, v', hg, hf, hout⟩
          · left
            rw [hg4 _ (by decide), hout]
            exact hg
          · right
            obtain ⟨akv, rfl, rfl⟩ := popObj_obj_cases _ _ _ hf
            refine ⟨popAll akv ["helm.sh/chart"], ?_, ?_⟩
            · rw [hg4 _ (by decide), hout, getKey_setKey_self]
            · intro k hk
              have hndakv : nodupKeys akv = true := by
                have hga : getKey mkvs "labels" = some (.obj akv) := by
                  rw [← getKey_popAll_not_mem mkvs metaPopKeys "labels" (by decide),
                    ← hannGet _ (by decide)]
                  exact hg
                have := wfJson_of_getKey mkvs "labels" _ hwk hga
                exact wfJson_obj_nodup _ this
              exact getKey_popAll_mem _ _ _ hk hndakv
        simp only [hlab2]
        rw [popKey_of_getKey_none _ _ (getKey_popKey_self mkvs3 "ownerReferences" hnd3)]

/-- Characterization of a successful `cleanTemplateMetadata` on a well-formed
template metadata mapping: result shape, and idempotence. -/
theorem cleanTemplateMetadata_post (tkvs : List (String × Json)) (tm' : Json)
    (hnd : nodupKeys tkvs = true) (hwk : wfJsonKvs tkvs = true)
    (h : cleanTemplateMetadata (.obj tkvs) = some tm') :
    ∃ tkvs', tm' = .obj tkvs' ∧ cleanTemplateMetadata tm' = some tm' := by
  simp only [cleanTemplateMetadata, asObjKvs] at h
  cases hml : modifyPresent tkvs "labels" (popObj tmplLabelPopKeys) with
  | none =>
    simp only [hml] at h
    exact Option.noConfusion h
  | some t1 =>
    simp only [hml] at h
    cases hma : modifyPresent t1 "annotations" (popObj tmplAnnPopKeys) with
    | none =>
      simp only [hma] at h
      exact Option.noConfusion h
    | some t2 =>
      simp only [hma] at h
      injection h with h2
      have hlabGet : ∀ k, k ≠ "labels" → getKey t1 k = getKey tkvs k := by
        intro k hk
        rcases modifyPresent_cases _ _ _ _ hml with ⟨_, hout⟩ | ⟨v, v', _, _, hout⟩
        · rw [hout]
        · rw [hout, getKey_setKey_ne _ _ _ _ hk]
      have hnd1 : nodupKeys t1 = true := by
        rcases modifyPresent_cases _ _ _ _ hml with ⟨_, hout⟩ | ⟨v, v', hg, _, hout⟩
        · rw [hout]; exact hnd
        · rw [hout]; exact nodupKeys_setKey _ _ _ (by rw [hg]; simp) hnd
      have hannGet : ∀ k, k ≠ "annotations" → getKey t2 k = getKey t1 k := by
        intro k hk
        rcases modifyPresent_cases _ _ _ _ hma with ⟨_, hout⟩ | ⟨v, v', _, _, hout⟩
        · rw [hout]
        · rw [hout, getKey_setKey_ne _ _ _ _ hk]
      have hnd2 : nodupKeys t2 = true := by
        rcases modifyPresent_cases _ _ _ _ hma with ⟨_, hout⟩ | ⟨v, v', hg, _, hout⟩
        · rw [hout]; exact hnd1
        · rw [hout]; exact nodupKeys_setKey _ _ _ (by rw [hg]; simp) hnd1
      have hg3 : ∀ k, k ≠ "creationTimestamp" →
          getKey (popKey t2 "creationTimestamp") k = getKey t2 k := by
        intro k hk
        exact getKey_popKey_ne _ _ _ hk
      refine ⟨popKey t2 "creationTimestamp", h2.symm, ?_⟩
      rw [← h2]
      simp only [cleanTemplateMetadata, asObjKvs]
      have hlab2 : modifyPresent (popKey t2 "creationTimestamp") "labels"
          (popObj tmplLabelPopKeys) = some (popKey t2 "creationTimestamp") := by
        apply modifyPresent_popObj_noop
        rcases modifyPresent_cases _ _ _ _ hml with ⟨hg, hout⟩ | ⟨v, v', hg, hf, hout⟩
        · left
          rw [hg3 _ (by decide), hannGet _ (by decide), hout]
          exact hg
        · right
          obtain ⟨akv, rfl, rfl⟩ := popObj_obj_cases _ _ _ hf
          refine ⟨popAll akv tmplLabelPopKeys, ?_, ?_⟩
          · rw [hg3 _ (by decide), hannGet _ (by decide), hout, getKey_setKey_self]
          · intro k hk
            have hndakv : nodupKeys akv = true :=
              wfJson_obj_nodup _ (wfJson_of_getKey tkvs "labels" _ hwk hg)
            exact getKey_popAll_mem _ _ _ hk hndakv
      simp only [hlab2]
      have hann2 : modifyPresent (popKey t2 "creationTimestamp") "annotations"
          (popObj tmplAnnPopKeys) = some (popKey t2 "creationTimestamp") := by
        apply modifyPresent_popObj_noop
        rcases modifyPresent_cases _ _ _ _ hma with ⟨hg, hout⟩ | ⟨v, v', hg, hf, hout⟩
        · left
          rw [hg3 _ (by decide), hout]
          exact hg
        · right
          obtain ⟨akv, rfl, rfl⟩ := popObj_obj_cases _ _ _ hf
          refine ⟨popAll akv tmplAnnPopKeys, ?_, ?_⟩
          · rw [hg3 _ (by decide), hout, getKey_setKey_self]
          · intro k hk
            have hgt : getKey tkvs "annotations" = some (.obj akv) := by
              rw [← hlabGet _ (by decide)]
              exact hg
            have hndakv : nodupKeys akv = true :=
              wfJson_obj_nodup _ (wfJson_of_getKey tkvs "annotations" _ hwk hgt)
            exact getKey_popAll_mem _ _ _ hk hndakv
      simp only [hann2]
      rw [popKey_of_getKey_none _ _ (getKey_popKey_self t2 "creationTimestamp" hnd2)]

/-- Characterization of a successful `cleanSelector` on a well-formed
selector mapping: result shape, non-emptiness, and idempotence. -/
theorem cleanSelector_post (skvsSel : List (String × Json)) (sel' : Json)
    (hne : skvsSel ≠ []) (hwk : wfJsonKvs skvsSel = true)
    (h : cleanSelector (.obj skvsSel) = some sel') :
    ∃ selKvs', sel' = .obj selKvs' ∧ selKvs' ≠ [] ∧ cleanSelector sel' = some sel' := by
  simp only [cleanSelector, asObjKvs] at h
  cases hmm : modifyPresent skvsSel "matchLabels" (popObj tmplLabelPopKeys) with
  | none =>
    simp only [hmm] at h
    exact Option.noConfusion h
  | some s1 =>
    simp only [hmm] at h
    injection h with h2
    have hne1 : s1 ≠ [] := by
      rcases modifyPresent_cases _ _ _ _ hmm with ⟨_, hout⟩ | ⟨v, v', _, _, hout⟩
      · rw [hout]; exact hne
      · rw [hout]; exact setKey_ne_nil _ _ _
    refine ⟨s1, h2.symm, hne1, ?_⟩
    rw [← h2]
    simp only [cleanSelector, asObjKvs]
    have hmm2 : modifyPresent s1 "matchLabels" (popObj tmplLabelPopKeys) = some s1 := by
      apply modifyPresent_popObj_noop
      rcases modifyPresent_cases _ _ _ _ hmm with ⟨hg, hout⟩ | ⟨v, v', hg, hf, hout⟩
      · left
        rw [hout]; exact hg
      · right
        obtain ⟨akv, rfl, rfl⟩ := popObj_obj_cases _ _ _ hf
        refine ⟨popAll akv tmplLabelPopKeys, ?_, ?_⟩
        · rw [hout, getKey_setKey_self]
        · intro k hk
          have hndakv : nodupKeys akv = true :=
            wfJson_obj_nodup _ (wfJson_of_getKey skvsSel "matchLabels" _ hwk hg)
          exact getKey_popAll_mem _ _ _ hk hndakv
    simp only [hmm2]

theorem truthy_obj_ne_nil (kvs : List (String × Json))
    (h : Json.truthy (.obj kvs) = true) : kvs ≠ [] := by
  cases kvs with
  | nil => simp [Json.truthy] at h
  | cons p rest => simp

theorem truthy_obj_of_ne_nil (kvs : List (String × Json)) (h : kvs ≠ []) :
    Json.truthy (.obj kvs) = true := by
  cases kvs with
  | nil => exact absurd rfl h
  | cons p rest => rfl

theorem cleanTemplateMetadata_obj (tm tm' : Json)
    (h : cleanTemplateMetadata tm = some tm') : ∃ tmk, tm = .obj tmk := by
  cases tm with
  | obj tmk => exact ⟨tmk, rfl⟩
  | null => exact Option.noConfusion h
  | b x => exact Option.noConfusion h
  | i n => exact Option.noConfusion h
  | s st => exact Option.noConfusion h
  | arr xs => exact Option.noConfusion h

theorem cleanSelector_obj (sel sel' : Json)
    (h : cleanSelector sel = some sel') : ∃ sk, sel = .obj sk := by
  cases sel with
  | obj sk => exact ⟨sk, rfl⟩
  | null => exact Option.noConfusion h
  | b x => exact Option.noConfusion h
  | i n => exact Option.noConfusion h
  | s st => exact Option.noConfusion h
  | arr xs => exact Option.noConfusion h

/-- Characterization of a successful template-metadata stage: non-emptiness
and key uniqueness carry over, and a second application is the identity. -/
theorem cleanTemplateStage_post (tkvs tkvs' : List (String × Json))
    (hnd : nodupKeys tkvs = true) (hwk : wfJsonKvs tkvs = true)
    (h : cleanTemplateStage tkvs = some tkvs') :
    (tkvs ≠ [] → tkvs' ≠ []) ∧ nodupKeys tkvs' = true ∧
      cleanTemplateStage tkvs' = some tkvs' := by
  cases hgm : getKey tkvs "metadata" with
  | none =>
    simp only [cleanTemplateStage, hgm, Option.getD_none, Json.truthy,
      Bool.false_eq_true, if_false] at h
    injection h with h2
    subst h2
    exact ⟨id, hnd, by
      simp only [cleanTemplateStage, hgm, Option.getD_none, Json.truthy,
        Bool.false_eq_true, if_false]⟩
  | some tm0 =>
    cases htm : tm0.truthy with
    | false =>
      simp only [cleanTemplateStage, hgm, Option.getD_some, htm,
        Bool.false_eq_true, if_false] at h
      injection h with h2
      subst h2
      exact ⟨id, hnd, by
        simp only [cleanTemplateStage, hgm, Option.getD_some, htm,
          Bool.false_eq_true, if_false]⟩
    | true =>
      simp only [cleanTemplateStage, hgm, Option.getD_some, htm, if_true] at h
      cases hctm : cleanTemplateMetadata tm0 with
      | none =>
        simp only [hctm] at h
        exact Option.noConfusion h
      | some tm' =>
        simp only [hctm] at h
        injection h with h2
        obtain ⟨tmk, rfl⟩ := cleanTemplateMetadata_obj tm0 tm' hctm
        have hwtm : wfJson (.obj tmk) = true := wfJson_of_getKey tkvs "metadata" _ hwk hgm
        obtain ⟨tmk', htmEq, hidem⟩ :=
          cleanTemplateMetadata_post tmk tm' (wfJson_obj_nodup _ hwtm)
            (wfJson_obj_kvs _ hwtm) hctm
        subst h2
        refine ⟨fun _ => setKey_ne_nil _ _ _,
          nodupKeys_setKey _ _ _ (by rw [hgm]; simp) hnd, ?_⟩
        have hg2 : getKey (setKey tkvs "metadata" tm') "metadata" = some tm' :=
          getKey_setKey_self _ _ _
        subst htmEq
        cases tmk' with
        | nil =>
          simp only [cleanTemplateStage, hg2, Option.getD_some, Json.truthy,
            Bool.false_eq_true, if_false]
        | cons q qs =>
          simp only [cleanTemplateStage, hg2, Option.getD_some, Json.truthy, if_true,
            hidem]
          rw [setKey_of_getKey_some _ _ _ hg2]

/-- Characterization of a successful selector stage. -/
theorem cleanSelectorStage_post (x y : List (String × Json))
    (hselwf : ∀ sv, getKey x "selector" = some sv → wfJson sv = true)
    (h : cleanSelectorStage x = some y) :
    (∀ k, k ≠ "selector" → getKey y k = getKey x k) ∧
    (nodupKeys x = true → nodupKeys y = true) ∧
    (∀ s2, getKey s2 "selector" = getKey y "selector" →
      cleanSelectorStage s2 = some s2) := by
  cases hgs : getKey x "selector" with
  | none =>
    simp only [cleanSelectorStage, hgs, Option.getD_none, Json.truthy,
      Bool.false_eq_true, if_false] at h
    injection h with h2
    subst h2
    refine ⟨fun k _ => rfl, id, ?_⟩
    intro s2 h2
    rw [hgs] at h2
    simp only [cleanSelectorStage, h2, Option.getD_none, Json.truthy,
      Bool.false_eq_true, if_false]
  | some sel0 =>
    cases hst : sel0.truthy with
    | false =>
      simp only [cleanSelectorStage, hgs, Option.getD_some, hst,
        Bool.false_eq_true, if_false] at h
      injection h with h2
      subst h2
      refine ⟨fun k _ => rfl, id, ?_⟩
      intro s2 h2
      rw [hgs] at h2
      simp only [cleanSelectorStage, h2, Option.getD_some, hst,
        Bool.false_eq_true, if_false]
    | true =>
      simp only [cleanSelectorStage, hgs, Option.getD_some, hst, if_true] at h
      cases hcs : cleanSelector sel0 with
      | none =>
        simp only [hcs] at h
        exact Option.noConfusion h
      | some sel' =>
        simp only [hcs] at h
        injection h with h2
        obtain ⟨sk, rfl⟩ := cleanSelector_obj sel0 sel' hcs
        have hwsel : wfJson (.obj sk) = true := hselwf _ hgs
        obtain ⟨sk', hselEq, hskne, hselIdem⟩ :=
          cleanSelector_post sk sel' (truthy_obj_ne_nil sk hst)
            (wfJson_obj_kvs _ hwsel) hcs
        subst h2
        refine ⟨fun k hk => getKey_setKey_ne _ _ _ _ hk,
          fun hx => nodupKeys_setKey _ _ _ (by rw [hgs]; simp) hx, ?_⟩
        intro s2 h2
        rw [getKey_setKey_self] at h2
        subst hselEq
        simp only [cleanSelectorStage, h2, Option.getD_some,
          truthy_obj_of_ne_nil sk' hskne, if_true, hselIdem]
        rw [setKey_of_getKey_some _ _ _ h2]

/-- Characterization of a successful `cleanTemplateBlock`: preservation of
keys other than `template`/`selector`, key uniqueness, and idempotence of a
second pass on any mapping agreeing at those two keys. -/
theorem cleanTemplateBlock_post (skvs s1 : List (String × Json))
    (hnd : nodupKeys skvs = true) (hwk : wfJsonKvs skvs = true)
    (h : cleanTemplateBlock skvs = some s1) :
    (∀ k, k ≠ "template" → k ≠ "selector" → getKey s1 k = getKey skvs k) ∧
    nodupKeys s1 = true ∧
    (∀ s2, getKey s2 "template" = getKey s1 "template" →
      getKey s2 "selector" = getKey s1 "selector" →
      cleanTemplateBlock s2 = some s2) := by
  cases hgt : getKey skvs "template" with
  | none =>
    simp only [cleanTemplateBlock, hgt, Option.getD_none, Json.truthy,
      Bool.false_eq_true, if_false] at h
    injection h with h2
    subst h2
    refine ⟨fun k _ _ => rfl, hnd, ?_⟩
    intro s2 h2 _
    rw [hgt] at h2
    simp only [cleanTemplateBlock, h2, Option.getD_none, Json.truthy,
      Bool.false_eq_true, if_false]
  | some t =>
    cases htr : t.truthy with
    | false =>
      simp only [cleanTemplateBlock, hgt, Option.getD_some, htr,
        Bool.false_eq_true, if_false] at h
      injection h with h2
      subst h2
      refine ⟨fun k _ _ => rfl, hnd, ?_⟩
      intro s2 h2 _
      rw [hgt] at h2
      simp only [cleanTemplateBlock, h2, Option.getD_some, htr,
        Bool.false_eq_true, if_false]
    | true =>
      simp only [cleanTemplateBlock, hgt, Option.getD_some, htr, if_true] at h
      cases t with
      | obj tkvs =>
        simp only [asObjKvs] at h
        cases hts : cleanTemplateStage tkvs with
        | none =>
          simp only [hts] at h
          exact Option.noConfusion h
        | some tkvs' =>
          simp only [hts] at h
          have hwt : wfJson (.obj tkvs) = true := wfJson_of_getKey skvs "template" _ hwk hgt
          obtain ⟨htsne, htsnodup, htsidem⟩ :=
            cleanTemplateStage_post tkvs tkvs' (wfJson_obj_nodup _ hwt)
              (wfJson_obj_kvs _ hwt) hts
          have hselwf : ∀ sv, getKey (setKey skvs "template" (Json.obj tkvs')) "selector" =
              some sv → wfJson sv = true := by
            intro sv hsv
            rw [getKey_setKey_ne _ _ _ _ (by decide)] at hsv
            exact wfJson_of_getKey skvs "selector" _ hwk hsv
          obtain ⟨hSSpres, hSSnodup, hSSidem⟩ := cleanSelectorStage_post _ _ hselwf h
          have hs1t : getKey s1 "template" = some (Json.obj tkvs') := by
            rw [hSSpres "template" (by decide), getKey_setKey_self]
          refine ⟨?_, ?_, ?_⟩
          · intro k hk1 hk2
            rw [hSSpres k hk2, getKey_setKey_ne _ _ _ _ hk1]
          · exact hSSnodup (nodupKeys_setKey _ _ _ (by rw [hgt]; simp) hnd)
          · intro s2 h2 h3
            rw [hs1t] at h2
            have htkne : tkvs' ≠ [] := htsne (truthy_obj_ne_nil tkvs htr)
            simp only [cleanTemplateBlock, h2, Option.getD_some,
              truthy_obj_of_ne_nil tkvs' htkne, if_true, asObjKvs, htsidem]
            rw [setKey_of_getKey_some _ _ _ h2]
            exact hSSidem s2 h3
      | null => simp [asObjKvs] at h
      | b x => simp [asObjKvs] at h
      | i n => simp [asObjKvs] at h
      | s st => simp [asObjKvs] at h
      | arr xs => simp [asObjKvs] at h

theorem serviceNotHeadless_congr (d1 d2 : List (String × Json))
    (hk : getKey d2 "kind" = getKey d1 "kind")
    (hm : getKey d2 "metadata" = getKey d1 "metadata") :
    serviceNotHeadless d2 = serviceNotHeadless d1 := by
  unfold serviceNotHeadless
  rw [hk, hm]

theorem isPvcKind_congr (d1 d2 : List (String × Json))
    (hk : getKey d2 "kind" = getKey d1 "kind") :
    isPvcKind d2 = isPvcKind d1 := by
  unfold isPvcKind
  rw [hk]

/-- Characterization of a successful Service/PersistentVolumeClaim stage. -/
theorem cleanServicePvc_post (dkvs skvs s2 : List (String × Json))
    (hnd : nodupKeys skvs = true)
    (h : cleanServicePvc dkvs skvs = some s2) :
    (∀ k, k ∉ svcPopKeys → k ≠ "volumeName" → getKey s2 k = getKey skvs k) ∧
    nodupKeys s2 = true ∧
    (∀ d2, getKey d2 "kind" = getKey dkvs "kind" →
      getKey d2 "metadata" = getKey dkvs "metadata" →
      cleanServicePvc d2 s2 = some s2) ∧
    (serviceNotHeadless dkvs = some true → ∀ k ∈ svcPopKeys, getKey s2 k = none) ∧
    (serviceNotHeadless dkvs = some false → isPvcKind dkvs = false → s2 = skvs) ∧
    (isPvcKind dkvs = true → getKey s2 "volumeName" = none) := by
  unfold cleanServicePvc at h
  cases hsnh : serviceNotHeadless dkvs with
  | none =>
    rw [hsnh] at h
    exact Option.noConfusion h
  | some bsvc =>
    rw [hsnh] at h
    have hvolnotsvc : ∀ k ∈ svcPopKeys, k ≠ "volumeName" := by decide
    cases bsvc with
    | false =>
      simp only [Bool.false_eq_true, if_false] at h
      cases hpvc : isPvcKind dkvs with
      | false =>
        rw [hpvc] at h
        simp only [Bool.false_eq_true, if_false] at h
        injection h with h2
        subst h2
        refine ⟨fun k _ _ => rfl, hnd, ?_, ?_, fun _ _ => rfl, ?_⟩
        · intro d2 hk hm
          unfold cleanServicePvc
          rw [serviceNotHeadless_congr dkvs d2 hk hm, hsnh,
            isPvcKind_congr dkvs d2 hk, hpvc]
          simp
        · intro hcontra
          exact absurd hcontra (by simp)
        · intro hcontra
          exact absurd hcontra (by simp)
      | true =>
        rw [hpvc] at h
        simp only [if_true] at h
        injection h with h2
        subst h2
        have hvolgone : getKey (popKey skvs "volumeName") "volumeName" = none :=
          getKey_popKey_self _ _ hnd
        refine ⟨fun k _ hkv => getKey_popKey_ne _ _ _ hkv, nodupKeys_popKey _ _ hnd,
          ?_, ?_, ?_, fun _ => hvolgone⟩
        · intro d2 hk hm
          unfold cleanServicePvc
          rw [serviceNotHeadless_congr dkvs d2 hk hm, hsnh,
            isPvcKind_congr dkvs d2 hk, hpvc]
          simp only [Bool.false_eq_true, if_false, if_true]
          rw [popKey_of_getKey_none _ _ hvolgone]
        · intro hcontra
          exact absurd hcontra (by simp)
        · intro _ hcontra
          exact absurd hcontra (by simp)
    | true =>
      simp only [if_true] at h
      have hsvcGone : ∀ k ∈ svcPopKeys, getKey (popAll skvs svcPopKeys) k = none :=
        fun k hk => getKey_popAll_mem _ _ _ hk hnd
      have hndpop : nodupKeys (popAll skvs svcPopKeys) = true := nodupKeys_popAll _ _ hnd
      cases hpvc : isPvcKind dkvs with
      | false =>
        rw [hpvc] at h
        simp only [Bool.false_eq_true, if_false] at h
        injection h with h2
        subst h2
        refine ⟨fun k hks _ => getKey_popAll_not_mem _ _ _ hks, hndpop, ?_,
          fun _ => hsvcGone, ?_, ?_⟩
        · intro d2 hk hm
          unfold cleanServicePvc
          rw [serviceNotHeadless_congr dkvs d2 hk hm, hsnh,
            isPvcKind_congr dkvs d2 hk, hpvc]
          simp only [if_true, Bool.false_eq_true, if_false]
          rw [popAll_of_getKey_none _ _ hsvcGone]
        · intro hcontra
          exact absurd hcontra (by simp)
        · intro hcontra
          exact absurd hcontra (by simp)
      | true =>
        rw [hpvc] at h
        simp only [if_true] at h
        injection h with h2
        subst h2
        have hvolgone : getKey (popKey (popAll skvs svcPopKeys) "volumeName") "volumeName" = none :=
          getKey_popKey_self _ _ hndpop
        refine ⟨?_, nodupKeys_popKey _ _ hndpop, ?_, ?_, ?_, fun _ => hvolgone⟩
        · intro k hks hkv
          rw [getKey_popKey_ne _ _ _ hkv, getKey_popAll_not_mem _ _ _ hks]
        · intro d2 hk hm
          unfold cleanServicePvc
          rw [serviceNotHeadless_congr dkvs d2 hk hm, hsnh,
            isPvcKind_congr dkvs d2 hk, hpvc]
          simp only [if_true]
          rw [popAll_of_getKey_none _ _
              (fun k hk2 => by
                rw [getKey_popKey_ne _ _ _ (hvolnotsvc k hk2)]
                exact hsvcGone k hk2),
            popKey_of_getKey_none _ _ hvolgone]
        · intro _ k hk2
          rw [getKey_popKey_ne _ _ _ (hvolnotsvc k hk2)]
          exact hsvcGone k hk2
        · intro hcontra
          exact absurd hcontra (by simp)

theorem cleanMetadata_objShape (m m' : Json) (h : cleanMetadata m = some m') :
    ∃ mkvs, m = .obj mkvs := by
  cases m with
  | obj mkvs => exact ⟨mkvs, rfl⟩
  | null => exact Option.noConfusion h
  | b x => exact Option.noConfusion h
  | i n => exact Option.noConfusion h
  | s st => exact Option.noConfusion h
  | arr xs => exact Option.noConfusion h

/-- Decomposition of a successful `cleanBody` run into its stages. -/
theorem cleanBody_cases (dkvs dkvs' : List (String × Json))
    (h : cleanBody dkvs = some dkvs') :
    ∃ d1,
      ((getKey dkvs "metadata" = none ∧ d1 = dkvs) ∨
       (∃ mkvs m', getKey dkvs "metadata" = some (.obj mkvs) ∧
          cleanMetadata (.obj mkvs) = some m' ∧ d1 = setKey dkvs "metadata" m')) ∧
      ((Json.truthy ((getKey d1 "spec").getD (.obj [])) = false ∧
          dkvs' = popKey d1 "status") ∨
       (∃ skvs s1 s2, getKey d1 "spec" = some (.obj skvs) ∧ skvs ≠ [] ∧
          cleanTemplateBlock skvs = some s1 ∧ cleanServicePvc d1 s1 = some s2 ∧
          dkvs' = popKey (setKey d1 "spec" (.obj s2)) "status")) := by
  unfold cleanBody at h
  cases hmm0 : modifyPresent dkvs "metadata" cleanMetadata with
  | none =>
    rw [hmm0] at h
    exact Option.noConfusion h
  | some d1 =>
    rw [hmm0] at h
    refine ⟨d1, ?_, ?_⟩
    · rcases modifyPresent_cases _ _ _ _ hmm0 with ⟨hg, hout⟩ | ⟨m, m', hg, hf, hout⟩
      · exact Or.inl ⟨hg, hout⟩
      · obtain ⟨mkvs, rfl⟩ := cleanMetadata_objShape m m' hf
        exact Or.inr ⟨mkvs, m', hg, hf, hout⟩
    · simp only at h
      cases hsp : Json.truthy ((getKey d1 "spec").getD (.obj [])) with
      | false =>
        simp only [hsp, Bool.false_eq_true, if_false] at h
        injection h with h2
        exact Or.inl ⟨rfl, h2.symm⟩
      | true =>
        simp only [hsp, if_true] at h
        cases hgsp : getKey d1 "spec" with
        | none =>
          rw [hgsp] at hsp
          simp [Json.truthy] at hsp
        | some spv =>
          rw [hgsp] at hsp h
          cases spv with
          | obj skvs =>
            simp only [Option.getD_some, asObjKvs] at h hsp
            cases htb : cleanTemplateBlock skvs with
            | none =>
              simp only [htb] at h
              exact Option.noConfusion h
            | some s1 =>
              simp only [htb] at h
              cases hsv : cleanServicePvc d1 s1 with
              | none =>
                simp only [hsv] at h
                exact Option.noConfusion h
              | some s2 =>
                simp only [hsv] at h
                injection h with h2
                exact Or.inr ⟨skvs, s1, s2, rfl, truthy_obj_ne_nil skvs hsp,
                  htb, hsv, h2.symm⟩
          | null => simp [Json.truthy] at hsp
          | b x =>
            simp only [Option.getD_some, asObjKvs] at h
            exact Option.noConfusion h
          | i n =>
            simp only [Option.getD_some, asObjKvs] at h
            exact Option.noConfusion h
          | s st =>
            simp only [Option.getD_some, asObjKvs] at h
            exact Option.noConfusion h
          | arr xs =>
            simp only [Option.getD_some, asObjKvs] at h
            exact Option.noConfusion h

/-- A second `cleanBody` pass over the output of a successful first pass on a
well-formed record is the identity. -/
theorem cleanBody_idem (dkvs dkvs' : List (String × Json))
    (hw : wfJson (.obj dkvs) = true)
    (h : cleanBody dkvs = some dkvs') :
    cleanBody dkvs' = some dkvs' := by
  have hnd : nodupKeys dkvs = true := wfJson_obj_nodup _ hw
  have hwk : wfJsonKvs dkvs = true := wfJson_obj_kvs _ hw
  obtain ⟨d1, hmeta, hspec⟩ := cleanBody_cases dkvs dkvs' h
  have hd1get : ∀ k, k ≠ "metadata" → getKey d1 k = getKey dkvs k := by
    rcases hmeta with ⟨hg, rfl⟩ | ⟨mkvs, m', hg, hcm, rfl⟩
    · intro k _; rfl
    · intro k hk; exact getKey_setKey_ne _ _ _ _ hk
  have hd1nodup : nodupKeys d1 = true := by
    rcases hmeta with ⟨hg, rfl⟩ | ⟨mkvs, m', hg, hcm, rfl⟩
    · exact hnd
    · exact nodupKeys_setKey _ _ _ (by rw [hg]; simp) hnd
  have hmp2 : ∀ x : List (String × Json), getKey x "metadata" = getKey d1 "metadata" →
      modifyPresent x "metadata" cleanMetadata = some x := by
    intro x hx
    rcases hmeta with ⟨hg, rfl⟩ | ⟨mkvs, m', hg, hcm, rfl⟩
    · simp only [modifyPresent, hx.trans hg]
    · obtain ⟨mkvs', hmEq, hmnodup, hmpres, hmidem⟩ :=
        cleanMetadata_post mkvs m'
          (wfJson_obj_nodup _ (wfJson_of_getKey dkvs "metadata" _ hwk hg))
          (wfJson_obj_kvs _ (wfJson_of_getKey dkvs "metadata" _ hwk hg)) hcm
      have hxm : getKey x "metadata" = some m' := by
        rw [hx]; exact getKey_setKey_self _ _ _
      simp only [modifyPresent, hxm, hmidem]
      rw [setKey_of_getKey_some _ _ _ hxm]
  rcases hspec with ⟨hsp, rfl⟩ | ⟨skvs, s1, s2, hgsp, hskne, htb, hsv, rfl⟩
  · -- falsy / absent spec
    have hdget : ∀ k, k ≠ "status" → getKey (popKey d1 "status") k = getKey d1 k :=
      fun k hk => getKey_popKey_ne _ _ _ hk
    simp only [cleanBody, hmp2 _ (hdget "metadata" (by decide))]
    rw [show getKey (popKey d1 "status") "spec" = getKey d1 "spec" from
      hdget "spec" (by decide)]
    simp only [hsp, Bool.false_eq_true, if_false]
    rw [popKey_of_getKey_none _ _ (getKey_popKey_self d1 "status" hd1nodup)]
  · -- truthy spec
    have hndset : nodupKeys (setKey d1 "spec" (.obj s2)) = true :=
      nodupKeys_setKey _ _ _ (by rw [hgsp]; simp) hd1nodup
    have hDspec : getKey (popKey (setKey d1 "spec" (.obj s2)) "status") "spec" =
        some (.obj s2) := by
      rw [getKey_popKey_ne _ _ _ (by decide), getKey_setKey_self]
    have hDmeta : getKey (popKey (setKey d1 "spec" (.obj s2)) "status") "metadata" =
        getKey d1 "metadata" := by
      rw [getKey_popKey_ne _ _ _ (by decide), getKey_setKey_ne _ _ _ _ (by decide)]
    have hDkind : getKey (popKey (setKey d1 "spec" (.obj s2)) "status") "kind" =
        getKey d1 "kind" := by
      rw [getKey_popKey_ne _ _ _ (by decide), getKey_setKey_ne _ _ _ _ (by decide)]
    have hDstatus : getKey (popKey (setKey d1 "spec" (.obj s2)) "status") "status" =
        none := getKey_popKey_self _ _ hndset
    have hwspec : wfJson (.obj skvs) = true := by
      have h2 : getKey dkvs "spec" = some (.obj skvs) :=
        (hd1get "spec" (by decide)).symm.trans hgsp
      exact wfJson_of_getKey dkvs "spec" _ hwk h2
    obtain ⟨hTBpres, hTBnodup, hTBidem⟩ :=
      cleanTemplateBlock_post skvs s1 (wfJson_obj_nodup _ hwspec)
        (wfJson_obj_kvs _ hwspec) htb
    obtain ⟨hSPpres, hSPnodup, hSPidem, hSPsvc, hSPboth, hSPpvc⟩ :=
      cleanServicePvc_post d1 s1 s2 hTBnodup hsv
    simp only [cleanBody, hmp2 _ hDmeta]
    rw [show getKey (popKey (setKey d1 "spec" (.obj s2)) "status") "spec" =
      some (Json.obj s2) from hDspec]
    cases hs2t : Json.truthy (Json.obj s2) with
    | false =>
      simp only [Option.getD_some, hs2t, Bool.false_eq_true, if_false]
      rw [popKey_of_getKey_none _ _ hDstatus]
    | true =>
      have htb2 : cleanTemplateBlock s2 = some s2 :=
        hTBidem s2 (hSPpres "template" (by decide) (by decide))
          (hSPpres "selector" (by decide) (by decide))
      have hsv2 : cleanServicePvc (popKey (setKey d1 "spec" (.obj s2)) "status") s2 =
          some s2 := hSPidem _ hDkind hDmeta
      simp only [Option.getD_some, hs2t, if_true, asObjKvs, htb2, hsv2]
      rw [setKey_of_getKey_some _ _ _ hDspec,
        popKey_of_getKey_none _ _ hDstatus]

/-! ## C4 — idempotence of the sanitizer -/

def isNonEmptyObj : Json → Bool
  | .obj (_ :: _) => true
  | _ => false

/-- C4 counterexample: the claim "applying sanitize twice yields the same
record as applying it once" fails at `{"status": null}`: one application
cleans it to the empty mapping, but a second application hits the
`if not data: return ""` guard and yields the empty-string sentinel. -/
theorem claim_C4_counterexample :
    (clean (Json.obj [("status", Json.null)])).bind clean = some (Json.s "") ∧
    clean (Json.obj [("status", Json.null)]) = some (Json.obj []) ∧
    Json.s "" ≠ Json.obj [] :=
  ⟨rfl, rfl, fun hcontra => Json.noConfusion hcontra⟩

/-- C4 (amended): sanitization is idempotent on every well-formed record
(mappings without duplicate keys) on which it succeeds and produces a
non-empty mapping; only when the cleaned result is empty (falsy) does a
second application differ, returning the empty-string sentinel instead. -/
theorem claim_C4_amended (r v : Json) (hwf : wfJson r = true)
    (hc : clean r = some v) (hne : isNonEmptyObj v = true) :
    clean v = some v := by
  unfold clean at hc
  cases htr : r.truthy with
  | false =>
    simp only [htr, Bool.false_eq_true, if_false] at hc
    injection hc with h2
    rw [← h2] at hne
    simp [isNonEmptyObj] at hne
  | true =>
    simp only [htr, if_true] at hc
    cases r with
    | obj dkvs =>
      have hc2 : Option.map Json.obj (cleanBody dkvs) = some v := hc
      cases hcb : cleanBody dkvs with
      | none =>
        rw [hcb] at hc2
        exact Option.noConfusion hc2
      | some dkvs' =>
        rw [hcb] at hc2
        simp only [Option.map_some'] at hc2
        injection hc2 with h2
        subst h2
        have hne' : dkvs' ≠ [] := by
          cases dkvs' with
          | nil => simp [isNonEmptyObj] at hne
          | cons p rest => simp
        have hidem := cleanBody_idem dkvs dkvs' hwf hcb
        unfold clean
        simp only [truthy_obj_of_ne_nil _ hne', if_true, hidem, Option.map_some']
    | null => exact Option.noConfusion hc
    | b x => exact Option.noConfusion hc
    | i n => exact Option.noConfusion hc
    | s st => exact Option.noConfusion hc
    | arr xs => exact Option.noConfusion hc

/-- C4 witness: a concrete Deployment-like record is a fixed point of
`clean` after one application. -/
theorem claim_C4_witness :
    clean (Json.obj [("kind", Json.s "Deployment"),
        ("metadata", Json.obj [("name", Json.s "d1")])]) =
      some (Json.obj [("kind", Json.s "Deployment"),
        ("metadata", Json.obj [("name", Json.s "d1")])]) :=
  claim_C4_amended
    (Json.obj [("kind", Json.s "Deployment"),
      ("metadata", Json.obj [("name", Json.s "d1"), ("uid", Json.s "u1")]),
      ("status", Json.null)])
    (Json.obj [("kind", Json.s "Deployment"),
      ("metadata", Json.obj [("name", Json.s "d1")])])
    (by decide) rfl rfl

/-! ## C5 — Service / PersistentVolumeClaim specific sanitization -/

/-- `record["kind"]` of a record. -/
def getKindOf (r : Json) : Option Json :=
  match r with
  | .obj kvs => getKey kvs "kind"
  | _ => none

/-- `record["metadata"]["name"]` of a record. -/
def getNameOf (r : Json) : Option Json :=
  match r with
  | .obj kvs =>
    match getKey kvs "metadata" with
    | some (.obj mkvs) => getKey mkvs "name"
    | _ => none
  | _ => none

/-- `record["spec"][k]` of a mapping, `none` when unreachable. -/
def specGet (kvs : List (String × Json)) (k : String) : Option Json :=
  match getKey kvs "spec" with
  | some (.obj skvs) => getKey skvs k
  | _ => none

/-- `record["spec"][k]` of a record. -/
def specLookup (v : Json) (k : String) : Option Json :=
  match v with
  | .obj kvs => specGet kvs k
  | _ => none

theorem specGet_congr (kvs1 kvs2 : List (String × Json)) (k : String)
    (h : getKey kvs1 "spec" = getKey kvs2 "spec") :
    specGet kvs1 k = specGet kvs2 k := by
  unfold specGet
  rw [h]

theorem specGet_falsy (kvs : List (String × Json)) (k : String)
    (h : Json.truthy ((getKey kvs "spec").getD (.obj [])) = false) :
    specGet kvs k = none := by
  unfold specGet
  cases hg : getKey kvs "spec" with
  | none => rfl
  | some sv =>
    rw [hg, Option.getD_some] at h
    cases sv with
    | obj skvs =>
      cases skvs with
      | nil => rfl
      | cons p rest => simp [Json.truthy] at h
    | null => rfl
    | b x => rfl
    | i n => rfl
    | s st => rfl
    | arr xs => rfl

theorem getKindOf_falsy (r : Json) (h : r.truthy = false) : getKindOf r = none := by
  cases r with
  | obj kvs =>
    cases kvs with
    | nil => rfl
    | cons p rest => simp [Json.truthy] at h
  | null => rfl
  | b x => rfl
  | i n => rfl
  | s st => rfl
  | arr xs => rfl

/-- C5: on a well-formed record that sanitizes successfully — for a Service
whose name does not end in `-headless`, the cleaned record has no
`spec.clusterIP`, `spec.clusterIPs` or `spec.loadBalancerIP`; for a Service
whose name does end in `-headless`, those three fields are preserved
unchanged; for a PersistentVolumeClaim, the cleaned record has no
`spec.volumeName`. -/
theorem claim_C5_service_pvc (r v : Json) (n : String)
    (hwf : wfJson r = true) (hc : clean r = some v) :
    (getKindOf r = some (Json.s "Service") → getNameOf r = some (Json.s n) →
      pyEndsWith n "-headless" = false →
      specLookup v "clusterIP" = none ∧ specLookup v "clusterIPs" = none ∧
        specLookup v "loadBalancerIP" = none) ∧
    (getKindOf r = some (Json.s "Service") → getNameOf r = some (Json.s n) →
      pyEndsWith n "-headless" = true →
      specLookup v "clusterIP" = specLookup r "clusterIP" ∧
        specLookup v "clusterIPs" = specLookup r "clusterIPs" ∧
        specLookup v "loadBalancerIP" = specLookup r "loadBalancerIP") ∧
    (getKindOf r = some (Json.s "PersistentVolumeClaim") →
      specLookup v "volumeName" = none) := by
  unfold clean at hc
  cases htr : r.truthy with
  | false =>
    have hkn := getKindOf_falsy r htr
    refine ⟨?_, ?_, ?_⟩
    · intro hk
      rw [hkn] at hk
      exact Option.noConfusion hk
    · intro hk
      rw [hkn] at hk
      exact Option.noConfusion hk
    · intro hk
      rw [hkn] at hk
      exact Option.noConfusion hk
  | true =>
    simp only [htr, if_true] at hc
    cases r with
    | null => exact Option.noConfusion hc
    | b x => exact Option.noConfusion hc
    | i n2 => exact Option.noConfusion hc
    | s st => exact Option.noConfusion hc
    | arr xs => exact Option.noConfusion hc
    | obj dkvs =>
      have hc2 : Option.map Json.obj (cleanBody dkvs) = some v := hc
      cases hcb : cleanBody dkvs with
      | none =>
        rw [hcb] at hc2
        exact Option.noConfusion hc2
      | some dkvs' =>
        rw [hcb] at hc2
        simp only [Option.map_some'] at hc2
        injection hc2 with h2
        subst h2
        have hnd : nodupKeys dkvs = true := wfJson_obj_nodup _ hwf
        have hwk : wfJsonKvs dkvs = true := wfJson_obj_kvs _ hwf
        obtain ⟨d1, hmeta, hspec⟩ := cleanBody_cases dkvs dkvs' hcb
        have hd1get : ∀ k, k ≠ "metadata" → getKey d1 k = getKey dkvs k := by
          rcases hmeta with ⟨hg, rfl⟩ | ⟨mkvs, m', hg, hcm, rfl⟩
          · intro k _; rfl
          · intro k hk; exact getKey_setKey_ne _ _ _ _ hk
        have hd1nodup : nodupKeys d1 = true := by
          rcases hmeta with ⟨hg, rfl⟩ | ⟨mkvs, m', hg, hcm, rfl⟩
          · exact hnd
          · exact nodupKeys_setKey _ _ _ (by rw [hg]; simp) hnd
        have hd1kind : getKey d1 "kind" = getKey dkvs "kind" := hd1get "kind" (by decide)
        -- the Service-name check at line 275 runs on the cleaned metadata,
        -- whose "name" entry is preserved
        have hsnh : getKindOf (Json.obj dkvs) = some (Json.s "Service") →
            getNameOf (Json.obj dkvs) = some (Json.s n) →
            serviceNotHeadless d1 = some (!(pyEndsWith n "-headless")) := by
          intro hk hn
          have hk' : getKey dkvs "kind" = some (Json.s "Service") := hk
          have hn' : (match getKey dkvs "metadata" with
              | some (.obj mkvs) => getKey mkvs "name"
              | _ => none) = some (Json.s n) := hn
          cases hgm : getKey dkvs "metadata" with
          | none =>
            simp only [hgm] at hn'
            exact Option.noConfusion hn'
          | some mv =>
            simp only [hgm] at hn'
            cases mv with
            | obj mkvs =>
              rcases hmeta with ⟨hgnone, rfl⟩ | ⟨mkvs2, m', hg2, hcm, rfl⟩
              · rw [hgm] at hgnone
                exact Option.noConfusion hgnone
              · rw [hgm] at hg2
                injection hg2 with h3
                injection h3 with h4
                subst h4
                obtain ⟨mkvs', hmEq, hmnodup, hmpres, hmidem⟩ :=
                  cleanMetadata_post mkvs m'
                    (wfJson_obj_nodup _ (wfJson_of_getKey dkvs "metadata" _ hwk hgm))
                    (wfJson_obj_kvs _ (wfJson_of_getKey dkvs "metadata" _ hwk hgm)) hcm
                have hname' : getKey mkvs' "name" = some (Json.s n) := by
                  rw [hmpres "name" (by decide) (by decide) (by decide) (by decide)]
                  exact hn'
                subst hmEq
                simp only [serviceNotHeadless,
                  getKey_setKey_ne dkvs "metadata" "kind" _ (by decide), hk',
                  if_pos rfl, getKey_setKey_self, hname']
                rw [if_pos trivial]
            | null => exact Option.noConfusion hn'
            | b x => exact Option.noConfusion hn'
            | i n2 => exact Option.noConfusion hn'
            | s st => exact Option.noConfusion hn'
            | arr xs => exact Option.noConfusion hn'
        -- summary of the spec stage
        have hSummary :
            (∀ k, specLookup (Json.obj dkvs') k = none ∧ specGet dkvs k = none) ∨
            (∃ skvs s1 s2, getKey dkvs "spec" = some (.obj skvs) ∧
              (∀ k, specLookup (Json.obj dkvs') k = getKey s2 k) ∧
              (∀ k, specGet dkvs k = getKey skvs k) ∧
              (∀ k, k ≠ "template" → k ≠ "selector" → getKey s1 k = getKey skvs k) ∧
              (serviceNotHeadless d1 = some true → ∀ k ∈ svcPopKeys, getKey s2 k = none) ∧
              (serviceNotHeadless d1 = some false → isPvcKind d1 = false → s2 = s1) ∧
              (isPvcKind d1 = true → getKey s2 "volumeName" = none)) := by
          rcases hspec with ⟨hsp, rfl⟩ | ⟨skvs, s1, s2, hgsp, hskne, htb, hsv, rfl⟩
          · left
            intro k
            have he : getKey (popKey d1 "status") "spec" = getKey d1 "spec" :=
              getKey_popKey_ne _ _ _ (by decide)
            constructor
            · show specGet (popKey d1 "status") k = none
              exact specGet_falsy _ k (by rw [he]; exact hsp)
            · exact specGet_falsy _ k (by rw [← hd1get "spec" (by decide)]; exact hsp)
          · right
            have hwspec : wfJson (.obj skvs) = true := by
              have h3 : getKey dkvs "spec" = some (.obj skvs) :=
                (hd1get "spec" (by decide)).symm.trans hgsp
              exact wfJson_of_getKey dkvs "spec" _ hwk h3
            obtain ⟨hTBpres, hTBnodup, hTBidem⟩ :=
              cleanTemplateBlock_post skvs s1 (wfJson_obj_nodup _ hwspec)
                (wfJson_obj_kvs _ hwspec) htb
            obtain ⟨hSPpres, hSPnodup, hSPidem, hSPsvc, hSPboth, hSPpvc⟩ :=
              cleanServicePvc_post d1 s1 s2 hTBnodup hsv
            have hvspec : getKey (popKey (setKey d1 "spec" (.obj s2)) "status") "spec" =
                some (.obj s2) := by
              rw [getKey_popKey_ne _ _ _ (by decide), getKey_setKey_self]
            refine ⟨skvs, s1, s2, (hd1get "spec" (by decide)).symm.trans hgsp,
              ?_, ?_, hTBpres, hSPsvc, hSPboth, hSPpvc⟩
            · intro k
              show specGet _ k = _
              unfold specGet
              rw [hvspec]
            · intro k
              unfold specGet
              rw [(hd1get "spec" (by decide)).symm.trans hgsp]
        refine ⟨?_, ?_, ?_⟩
        · intro hk hn hnh
          have hsnh' : serviceNotHeadless d1 = some true := by
            rw [hsnh hk hn, hnh]
            rfl
          rcases hSummary with hL | ⟨skvs, s1, s2, hgs, hlook, hrlook, hTBpres, hsvc, hboth, hpvc⟩
          · exact ⟨(hL _).1, (hL _).1, (hL _).1⟩
          · refine ⟨?_, ?_, ?_⟩
            · rw [hlook]; exact hsvc hsnh' _ (by decide)
            · rw [hlook]; exact hsvc hsnh' _ (by decide)
            · rw [hlook]; exact hsvc hsnh' _ (by decide)
        · intro hk hn hnh
          have hsnh' : serviceNotHeadless d1 = some false := by
            rw [hsnh hk hn, hnh]
            rfl
          have hk' : getKey dkvs "kind" = some (Json.s "Service") := hk
          have hpvcF : isPvcKind d1 = false := by
            simp only [isPvcKind, hd1kind, hk']
            decide
          rcases hSummary with hL | ⟨skvs, s1, s2, hgs, hlook, hrlook, hTBpres, hsvc, hboth, hpvc⟩
          · exact ⟨(hL _).1.trans (hL _).2.symm, (hL _).1.trans (hL _).2.symm,
              (hL _).1.trans (hL _).2.symm⟩
          · have hs2 : s2 = s1 := hboth hsnh' hpvcF
            refine ⟨?_, ?_, ?_⟩
            · rw [hlook, hs2, hTBpres _ (by decide) (by decide)]
              exact (hrlook _).symm
            · rw [hlook, hs2, hTBpres _ (by decide) (by decide)]
              exact (hrlook _).symm
            · rw [hlook, hs2, hTBpres _ (by decide) (by decide)]
              exact (hrlook _).symm
        · intro hk
          have hk' : getKey dkvs "kind" = some (Json.s "PersistentVolumeClaim") := hk
          have hpvcT : isPvcKind d1 = true := by
            simp only [isPvcKind, hd1kind, hk']
            decide
          rcases hSummary with hL | ⟨skvs, s1, s2, hgs, hlook, hrlook, hTBpres, hsvc, hboth, hpvc⟩
          · exact (hL _).1
          · rw [hlook]
            exact hpvc hpvcT

/-- C5 witness: the spec's own example pair — `clusterIP` is removed from a
Service named `foo`. -/
theorem claim_C5_witness :
    specLookup (Json.obj [("kind", Json.s "Service"),
      ("metadata", Json.obj [("name", Json.s "foo")]),
      ("spec", Json.obj [("ports", Json.arr [])])]) "clusterIP" = none ∧
    specLookup (Json.obj [("kind", Json.s "Service"),
      ("metadata", Json.obj [("name", Json.s "foo")]),
      ("spec", Json.obj [("ports", Json.arr [])])]) "clusterIPs" = none ∧
    specLookup (Json.obj [("kind", Json.s "Service"),
      ("metadata", Json.obj [("name", Json.s "foo")]),
      ("spec", Json.obj [("ports", Json.arr [])])]) "loadBalancerIP" = none :=
  (claim_C5_service_pvc
    (Json.obj [("kind", Json.s "Service"),
      ("metadata", Json.obj [("name", Json.s "foo"), ("uid", Json.s "u1")]),
      ("spec", Json.obj [("clusterIP", Json.s "1.2.3.4"), ("ports", Json.arr [])])])
    (Json.obj [("kind", Json.s "Service"),
      ("metadata", Json.obj [("name", Json.s "foo")]),
      ("spec", Json.obj [("ports", Json.arr [])])])
    "foo" (by decide) rfl).1 rfl rfl rfl
